import Mathlib

/-!
Basic attack action of the haunts tactical game.

A shallow embedding of `game/actions/basic_attack.go`: the targeting resolver
`findTargets`, the predicates `Preppable` and `Prep`, the record producers
`HandleInput` and `AiAttackTarget`, and the per-tick resolver `Maintain`.

Conventions of the embedding.

* Go `int` values are carried in `Int`.  The subtraction and the negation in
  `dist`, the arithmetic of the source on grid coordinates, wrap at 64 bits as
  they do in Go (`wrap64`).  Action points, health and damage are changed by the
  stats package only, and the ammunition counter is only ever decremented from
  a value above 0.
* A non-nil `*game.Entity` is an address `EntPtr`; the heap of entities is the
  field `Game.mem`.  A pointer that may be nil is an `Option EntPtr`.
* An operation that can hit a nil dereference returns an `Option`; the value
  `none` stands for the run-time panic.
* Writes through pointers are explicit heap updates, so that two pointers to the
  same entity alias as they do in Go.
-/

namespace Haunts

/-! ## Data model -/

/-- Entity identifiers, `game.EntityId`. -/
abbrev EntityId := Int

/-- Address of a heap allocated `game.Entity`. -/
abbrev EntPtr := Nat

/-- Damage kinds, `status.Kind`. -/
abbrev Kind := String

/-- The kind passed when the action point cost is deducted, `status.Unspecified`. -/
def Unspecified : Kind := "Unspecified"

/-- Modelled from the spec: the stats handle of an entity, of which the action only uses
`ap_current()`, `hp_current()`, `apply_damage(ap_delta, hp_delta, kind)` and
`apply_condition(effect)`.  The package `game/status` is not among the sources. -/
structure Stats where
  Ap : Int
  Hp : Int
  Conditions : List String
deriving DecidableEq

/-- Modelled from the spec: `ap_current()` of the stats handle. -/
def Stats.ApCur (s : Stats) : Int := s.Ap

/-- Modelled from the spec: `hp_current()` of the stats handle. -/
def Stats.HpCur (s : Stats) : Int := s.Hp

/-- Modelled from the spec: `apply_damage(ap_delta, hp_delta, kind)` adds the two deltas to the
current action points and to the current health. -/
def Stats.ApplyDamage (s : Stats) (dap dhp : Int) (_kind : Kind) : Stats :=
  { s with Ap := s.Ap + dap, Hp := s.Hp + dhp }

/-- Modelled from the spec: `status.MakeCondition(name)`, a status effect is known by its name. -/
def MakeCondition (name : String) : String := name

/-- Modelled from the spec: `apply_condition(effect)` records the effect on the stats handle. -/
def Stats.ApplyCondition (s : Stats) (c : String) : Stats :=
  { s with Conditions := s.Conditions ++ [c] }

/-- The two bookkeeping fields of `Entity.Info` written by `Maintain`. -/
structure EntityInfo where
  LastEntThatIAttacked : EntityId
  LastEntThatAttackedMe : EntityId
deriving DecidableEq

/-- The part of `game.Entity` read or written by the basic attack.  `los` is the line-of-sight
collaborator of the entity, `spriteState` what `Sprite().State()` reports, `facing` the point
last handed to `TurnToFace`. -/
structure Entity where
  Id : EntityId
  X : Int
  Y : Int
  side : Int
  Stats : Option Stats
  Info : EntityInfo
  los : Int → Int → Int → Int → Bool
  spriteState : String
  facing : Option (Int × Int)

/-- The method `Entity.Pos`. -/
def Entity.Pos (e : Entity) : Int × Int := (e.X, e.Y)

/-- The method `Entity.Side`. -/
def Entity.Side (e : Entity) : Int := e.side

/-- The method `Entity.HasLos(x, y, dx, dy)`, an external collaborator. -/
def Entity.HasLos (e : Entity) (x y dx dy : Int) : Bool := e.los x y dx dy

/-- The method `Entity.TurnToFace(x, y)`: remembers the point the entity now faces. -/
def Entity.TurnToFace (e : Entity) (p : Int × Int) : Entity :=
  { e with facing := some p }

/-- One call of `sprite.CommandSync`: the entities whose sprites take part, one command list
per sprite, and the name of the synchronisation barrier. -/
structure SyncCommand where
  sprites : List EntPtr
  cmds : List (List String)
  barrier : String
deriving DecidableEq

/-- The part of `game.Game` the action works on: the entity heap, the live collection `Ents`,
the hovered entity, and the logs of the presentation calls made so far. -/
structure Game where
  mem : EntPtr → Entity
  Ents : List EntPtr
  hovered : Option EntPtr
  syncCmds : List SyncCommand
  soundMaps : List (List (String × String))

/-- The method `Game.HoveredEnt`. -/
def Game.HoveredEnt (g : Game) : Option EntPtr := g.hovered

/-- A write through the pointer `p`. -/
def Game.modify (g : Game) (p : EntPtr) (f : Entity → Entity) : Game :=
  { g with mem := Function.update g.mem p (f (g.mem p)) }

/-- Search of the live collection for an identifier, the helper of `Game.EntityById`. -/
def lookupId (mem : EntPtr → Entity) (id : EntityId) : List EntPtr → Option EntPtr
  | [] => none
  | p :: ps => if (mem p).Id = id then some p else lookupId mem id ps

/-- Modelled from the spec: `Game.EntityById`, entity ids are lookup keys that resolve to an
entity of the live collection, or to nil when there is none. -/
def Game.EntityById (g : Game) (id : EntityId) : Option EntPtr :=
  lookupId g.mem id g.Ents

/-- The struct `BasicAttackDef`; the icon `Texture` plays no part in the logic and is left
out, a nil `Sounds` map is `none`. -/
structure BasicAttackDef where
  Name : String
  Kind : Kind
  Ap : Int
  Ammo : Int
  Strength : Int
  Range : Int
  Damage : Int
  Animation : String
  Conditions : List String
  Sounds : Option (List (String × String))
deriving DecidableEq

/-- The struct `basicAttackTempData`. -/
structure basicAttackTempData where
  ent : Option EntPtr
  targets : List EntPtr
  target : Option EntPtr
deriving DecidableEq

/-- The struct `BasicAttack`: the shared definition, the transient data and the ammunition
counter. -/
structure BasicAttack where
  Defname : String
  Def : BasicAttackDef
  temp : basicAttackTempData
  Current_ammo : Int
deriving DecidableEq

/-- Modelled from the spec: `game.BasicActionExec`, the part of an execution record filled by
`SetBasicData`: the acting entity id and the identity of the action. -/
structure BasicActionExec where
  Ent : EntityId
  Action : String
deriving DecidableEq

/-- The struct `basicAttackExec`. -/
structure basicAttackExec where
  base : BasicActionExec
  Target : EntityId
deriving DecidableEq

/-- The method `EntityId()` of an execution record. -/
def basicAttackExec.EntityId (e : basicAttackExec) : EntityId := e.base.Ent

/-- The result type `game.MaintenanceStatus`. -/
inductive MaintenanceStatus where
  | InProgress
  | Complete
deriving DecidableEq

/-- Event types of the input library. -/
inductive EventType where
  | Press
  | Release
  | Other
deriving DecidableEq

/-- An input event, of which only the field `Type` is inspected (here `Typ`). -/
structure Event where
  Typ : EventType
deriving DecidableEq

/-- Key identifiers of the input library. -/
abbrev KeyId := Nat

/-- The key id of the left mouse button; its numeric value is not used. -/
def MouseLButton : KeyId := 0

/-- An event group of the input library, observed only through `FindEvent`. -/
structure EventGroup where
  FindEvent : KeyId → Bool × Event

/-! ## The operations of `basic_attack.go` -/

/-- The value of a Go `int` (64 bits, two's complement) after an arithmetic operation whose
exact result is `n`: the integer in the range from -2^63 up to 2^63 - 1 that differs from `n`
by a multiple of 2^64. -/
def wrap64 (n : Int) : Int :=
  (n + 9223372036854775808) % 18446744073709551616 - 9223372036854775808

/-- The function `dist`; its two subtractions and its two negations are Go `int`
operations and wrap. -/
def dist (x y x2 y2 : Int) : Int :=
  let dx := wrap64 (x - x2)
  let dx := if dx < 0 then wrap64 (-dx) else dx
  let dy := wrap64 (y - y2)
  let dy := if dy < 0 then wrap64 (-dy) else dy
  if dx > dy then dx else dy

/-- Modelled from the spec: the Chebyshev distance `max(|dx|,|dy|)` of the glossary, the
metric of all range checks. -/
def chebyshev (x y x2 y2 : Int) : Int :=
  max |x - x2| |y - y2|

/-- Modelled from the spec: `distBetweenEnts`, which lives in another file of the package;
range checks use the Chebyshev distance of the two positions. -/
def distBetweenEnts (e1 e2 : Entity) : Int :=
  chebyshev e1.Pos.1 e1.Pos.2 e2.Pos.1 e2.Pos.2

/-- The body of the loop of `findTargets` for one entity `e` of the collection. -/
def findTargetsStep (a : BasicAttack) (ent : EntPtr) (g : Game) (targets : List EntPtr)
    (e : EntPtr) : List EntPtr :=
  if e = ent then targets
  else
    match (g.mem e).Stats with
    | none => targets
    | some st =>
      let x := (g.mem ent).Pos.1
      let y := (g.mem ent).Pos.2
      let x2 := (g.mem e).Pos.1
      let y2 := (g.mem e).Pos.2
      if decide (dist x y x2 y2 ≤ a.Def.Range) && (g.mem ent).HasLos x2 y2 1 1
          && decide (st.HpCur > 0) then
        targets ++ [e]
      else targets

/-- The method `BasicAttack.findTargets`. -/
def findTargets (a : BasicAttack) (ent : EntPtr) (g : Game) : List EntPtr :=
  g.Ents.foldl (findTargetsStep a ent g) []

/-- The method `BasicAttack.Preppable`; `none` is the nil dereference of `ent.Stats`, which
the short-circuit conjunction reaches only when the ammunition is not 0. -/
def Preppable (a : BasicAttack) (ent : EntPtr) (g : Game) : Option Bool :=
  if a.Current_ammo ≠ 0 then
    match (g.mem ent).Stats with
    | none => none
    | some st =>
      some (decide (st.ApCur ≥ a.Def.Ap) && decide ((findTargets a ent g).length > 0))
  else some false

/-- The method `BasicAttack.Prep`, returning its result and the updated instance and world. -/
def Prep (a : BasicAttack) (ent : EntPtr) (g : Game) : Option (Bool × BasicAttack × Game) :=
  match Preppable a ent g with
  | none => none
  | some false => some (false, a, g)
  | some true =>
    let a1 := { a with temp := { a.temp with ent := some ent } }
    let a2 := { a1 with temp := { a1.temp with targets := findTargets a1 ent g } }
    let g1 :=
      match a2.Def.Sounds with
      | none => g
      | some m => { g with soundMaps := g.soundMaps ++ [m] }
    some (true, a2, g1)

/-- The method `BasicAttack.makeExec`. -/
def makeExec (a : BasicAttack) (ent target : Entity) : basicAttackExec :=
  { base := { Ent := ent.Id, Action := a.Defname }, Target := target.Id }

/-- The method `BasicAttack.AiAttackTarget`; the inner `none` is the nil record, the outer
`none` the nil dereference of `ent.Stats`. -/
def AiAttackTarget (a : BasicAttack) (ent target : EntPtr) (g : Game) :
    Option (Option basicAttackExec) :=
  if (g.mem ent).Side = (g.mem target).Side then some none
  else
    match (g.mem ent).Stats with
    | none => none
    | some st =>
      if st.ApCur < a.Def.Ap then some none
      else
        let x := (g.mem ent).Pos.1
        let y := (g.mem ent).Pos.2
        let x2 := (g.mem target).Pos.1
        let y2 := (g.mem target).Pos.2
        if dist x y x2 y2 > a.Def.Range then some none
        else some (some (makeExec a (g.mem ent) (g.mem target)))

/-- The method `BasicAttack.HandleInput`; the outer `none` is the nil dereference of the bound
actor `a.ent` or of its stats. -/
def HandleInput (a : BasicAttack) (group : EventGroup) (g : Game) :
    Option (Bool × Option basicAttackExec) :=
  match g.HoveredEnt with
  | none => some (false, none)
  | some target =>
    match (g.mem target).Stats with
    | none => some (false, none)
    | some tst =>
      let found := (group.FindEvent MouseLButton).1
      let event := (group.FindEvent MouseLButton).2
      if found && decide (event.Typ = EventType.Press) then
        let px := (g.mem target).Pos.1
        let py := (g.mem target).Pos.2
        match a.temp.ent with
        | none => none
        | some ent =>
          match (g.mem ent).Stats with
          | none => none
          | some st =>
            if decide (st.ApCur ≥ a.Def.Ap) && decide (tst.HpCur > 0)
                && (g.mem ent).HasLos px py 1 1 then
              some (true, some (makeExec a (g.mem ent) (g.mem target)))
            else some (true, none)
      else some (false, none)

/-- The method `BasicAttack.Cancel`. -/
def Cancel (a : BasicAttack) : BasicAttack :=
  { a with temp := { ent := none, targets := [], target := none } }

/-- The hit determination `game.DoAttack(attacker, defender, strength, kind)`, an external
collaborator whose algorithm is not part of the action: any function of the world, the two
entities, the strength and the kind. -/
abbrev AttackOracle := Game → EntPtr → EntPtr → Int → Kind → Bool

/-- The two bookkeeping writes of `Maintain` for the actor at `p` and the target at `q`:
`a.ent.Info.LastEntThatIAttacked = a.target.Id` followed by
`a.target.Info.LastEntThatAttackedMe = a.ent.Id`. -/
def bookkeep (g : Game) (p q : EntPtr) : Game :=
  let g1 := g.modify p (fun e =>
    { e with Info := { e.Info with LastEntThatIAttacked := (g.mem q).Id } })
  g1.modify q (fun e =>
    { e with Info := { e.Info with LastEntThatAttackedMe := (g1.mem p).Id } })

/-- The two assignments `a.ent = ...` and `a.target = ...` at the start of `Maintain`. -/
def bindEnts (a : BasicAttack) (p q : EntPtr) : BasicAttack :=
  { a with temp := { a.temp with ent := some p, target := some q } }

/-- The first block of `Maintain`, run when a record is handed in: the ids of the record are
resolved and bound (a nil result is dereferenced at once, which panics), the bookkeeping
fields are written, and the record is validated.  The Boolean is `true` when one of the three
validation branches returns `Complete`. -/
def maintainBind (a : BasicAttack) (g : Game) (exec : basicAttackExec) :
    Option (Bool × BasicAttack × Game) :=
  match g.EntityById exec.EntityId with
  | none => none
  | some p =>
    match g.EntityById exec.Target with
    | none => none
    | some q =>
      let a2 := bindEnts a p q
      let g2 := bookkeep g p q
      match (g2.mem p).Stats with
      | none => none
      | some st =>
        if a2.Def.Ap > st.ApCur then some (true, a2, g2)
        else
          match (g2.mem q).Stats with
          | none => none
          | some tst =>
            if tst.HpCur ≤ 0 then some (true, a2, g2)
            else if distBetweenEnts (g2.mem p) (g2.mem q) > a2.Def.Range then
              some (true, a2, g2)
            else some (false, a2, g2)

/-- The two calls `a.target.TurnToFace(a.ent.Pos())` and `a.ent.TurnToFace(a.target.Pos())`
that open the resolution. -/
def faceEachOther (g : Game) (p q : EntPtr) : Game :=
  let g1 := g.modify q (fun e => e.TurnToFace (g.mem p).Pos)
  g1.modify p (fun e => e.TurnToFace (g1.mem q).Pos)

/-- The statement `if a.Current_ammo > 0 { a.Current_ammo-- }`. -/
def spendAmmo (a : BasicAttack) : BasicAttack :=
  if a.Current_ammo > 0 then { a with Current_ammo := a.Current_ammo - 1 } else a

/-- A write of the stats of the entity at `p`; the methods `ApplyDamage` and `ApplyCondition`
change the stats object in place. -/
def Game.setStats (g : Game) (p : EntPtr) (s : Stats) : Game :=
  g.modify p (fun e => { e with Stats := some s })

/-- The loop `for _,name := range a.Conditions` over `ApplyCondition(MakeCondition(name))`. -/
def applyConditions (names : List String) (s : Stats) : Stats :=
  names.foldl (fun s name => s.ApplyCondition (MakeCondition name)) s

/-- The call `sprite.CommandSync(sprites, cmds, barrier)`: the command is queued with the
sprites, which act on it when they next advance; the call itself leaves `State()` alone. -/
def commandSync (g : Game) (sprites : List EntPtr) (cmds : List (List String))
    (barrier : String) : Game :=
  { g with syncCmds := g.syncCmds ++ [⟨sprites, cmds, barrier⟩] }

/-- The resolution steps of `Maintain`, run once both sprites report the state ready. -/
def maintainResolve (doAttack : AttackOracle) (a : BasicAttack) (g : Game) (p q : EntPtr) :
    Option (MaintenanceStatus × BasicAttack × Game) :=
  let g2 := faceEachOther g p q
  let a1 := spendAmmo a
  match (g2.mem p).Stats with
  | none => none
  | some st =>
    let g3 := g2.setStats p (st.ApplyDamage (-a1.Def.Ap) 0 Unspecified)
    if doAttack g3 p q a1.Def.Strength a1.Def.Kind then
      match (g3.mem q).Stats with
      | none => none
      | some tst =>
        let tst1 := applyConditions a1.Def.Conditions tst
        let tst2 := tst1.ApplyDamage 0 (-a1.Def.Damage) a1.Def.Kind
        let g4 := g3.setStats q tst2
        let defender_cmds :=
          if tst2.HpCur ≤ 0 then ["defend", "killed"] else ["defend", "damaged"]
        some (MaintenanceStatus.Complete, a1,
          commandSync g4 [p, q] [[a1.Def.Animation], defender_cmds] "hit")
    else
      let defender_cmds := ["defend", "undamaged"]
      some (MaintenanceStatus.Complete, a1,
        commandSync g3 [p, q] [[a1.Def.Animation], defender_cmds] "hit")

/-- The second block of `Maintain`: the ready gate on the two sprites, evaluated with the
short-circuit conjunction of the source. -/
def maintainGate (doAttack : AttackOracle) (a : BasicAttack) (g : Game) :
    Option (MaintenanceStatus × BasicAttack × Game) :=
  match a.temp.ent with
  | none => none
  | some p =>
    if (g.mem p).spriteState = "ready" then
      match a.temp.target with
      | none => none
      | some q =>
        if (g.mem q).spriteState = "ready" then maintainResolve doAttack a g p q
        else some (MaintenanceStatus.InProgress, a, g)
    else some (MaintenanceStatus.InProgress, a, g)

/-- The method `BasicAttack.Maintain`.  The record `ae` is `none` for a nil `ActionExec`;
the result `none` is a run-time panic (nil dereference). -/
def Maintain (doAttack : AttackOracle) (a : BasicAttack) (_dt : Int) (g : Game)
    (ae : Option basicAttackExec) : Option (MaintenanceStatus × BasicAttack × Game) :=
  match ae with
  | none => maintainGate doAttack a g
  | some exec =>
    match maintainBind a g exec with
    | none => none
    | some (true, a1, g1) => some (MaintenanceStatus.Complete, a1, g1)
    | some (false, a1, g1) => maintainGate doAttack a1 g1

/-- The maker closure that `registerBasicAttacks` stores under the name `cname`: the fresh
instance gets `Defname`, then `base.GetObject` attaches the definition `d` registered under
that name, and the ammunition counter is set from `Ammo`. -/
def makeBasicAttack (cname : String) (d : BasicAttackDef) : BasicAttack :=
  let a : BasicAttack :=
    { Defname := cname, Def := d, temp := { ent := none, targets := [], target := none },
      Current_ammo := 0 }
  if a.Def.Ammo > 0 then { a with Current_ammo := a.Def.Ammo }
  else { a with Current_ammo := -1 }

/-! ## Key bindings, `base/bindings.go` -/

/-- A Go string, the sequence of its bytes. -/
abbrev GoString := List Nat

/-- The byte of the separator `+`. -/
def plusByte : Nat := 43

/-- The bytes of `ctrl`. -/
def strCtrl : GoString := [99, 116, 114, 108]

/-- The bytes of `shift`. -/
def strShift : GoString := [115, 104, 105, 102, 116]

/-- The bytes of `alt`. -/
def strAlt : GoString := [97, 108, 116]

/-- The bytes of `gui`. -/
def strGui : GoString := [103, 117, 105]

/-- The library call `strings.Split(str, "+")`: the parts of `str` between the separators, one
part more than there are separators. -/
def splitPlus : GoString → List GoString
  | [] => [[]]
  | c :: cs =>
    if c = plusByte then [] :: splitPlus cs
    else
      match splitPlus cs with
      | [] => [[c]]
      | part :: parts => (c :: part) :: parts

/-- The four key ids of the input library that stand for either of a pair of modifier keys;
their numeric values are constants of that library. -/
structure ModifierIds where
  EitherControl : KeyId
  EitherShift : KeyId
  EitherAlt : KeyId
  EitherGui : KeyId

/-- The `switch` in the loop of `getKeysFromString`: the key id for one part.  A part that
matches no case keeps the zero value of `var kid gin.KeyId`. -/
def kidOfPart (k : ModifierIds) (part : GoString) : KeyId :=
  match part with
  | [b] => b
  | _ =>
    if part = strCtrl then k.EitherControl
    else if part = strShift then k.EitherShift
    else if part = strAlt then k.EitherAlt
    else if part = strGui then k.EitherGui
    else 0

/-- The function `getKeysFromString`. -/
def getKeysFromString (k : ModifierIds) (str : GoString) : List KeyId :=
  (splitPlus str).foldl (fun kids part => kids ++ [kidOfPart k part]) []

/-- What `MakeKeyMap` stores for one binding: the natural key `gin.In().GetKey(kid)`, or the
derived key `BindDerivedKey(name, MakeBinding(main, modifiers, down))`. -/
inductive Key where
  | natural (kid : KeyId)
  | derived (name : GoString) (main : KeyId) (modifiers : List KeyId) (down : List Bool)
deriving DecidableEq

/-- The body of the loop of `MakeKeyMap` for one entry `key`, `val`; `none` is the index
panic of `kids[len(kids) - 1]` on an empty slice. -/
def makeKey (k : ModifierIds) (key val : GoString) : Option Key :=
  let kids := getKeysFromString k val
  if kids.length = 1 then
    match kids with
    | kid :: _ => some (Key.natural kid)
    | [] => none
  else
    match kids.getLast? with
    | none => none
    | some main =>
      let kids := kids.take (kids.length - 1)
      let down := kids.foldl (fun (down : List Bool) _ => down ++ [true]) []
      some (Key.derived key main kids down)

/-- The method `KeyBinds.MakeKeyMap`, the bindings and the resulting key map being given as
lists of entries. -/
def MakeKeyMap (k : ModifierIds) : List (GoString × GoString) → Option (List (GoString × Key))
  | [] => some []
  | (key, val) :: rest =>
    match makeKey k key val, MakeKeyMap k rest with
    | some x, some m => some ((key, x) :: m)
    | _, _ => none

/-- What the claims observe of a result of `Maintain`: the status, the ammunition counter,
the stats of the entities at `p` and `q`, and the number of animation commands issued so
far. -/
def observe (p q : EntPtr) (r : Option (MaintenanceStatus × BasicAttack × Game)) :
    Option (MaintenanceStatus × Int × Option Stats × Option Stats × Nat) :=
  r.map (fun x => (x.1, x.2.1.Current_ammo, (x.2.2.mem p).Stats, (x.2.2.mem q).Stats,
    x.2.2.syncCmds.length))

/-- The world in which the sprite of the entity at `p` reports the state `s`. -/
def Game.withSprite (g : Game) (p : EntPtr) (s : String) : Game :=
  g.modify p (fun e => { e with spriteState := s })

/-! ## Statements in the words of the specification -/

/-- The guards of the loop of `findTargets` as one test on an entity `e` of the collection,
with the distance as `dist` computes it. -/
def passesGuards (a : BasicAttack) (ent : EntPtr) (g : Game) (e : EntPtr) : Bool :=
  decide (e ≠ ent) &&
    match (g.mem e).Stats with
    | none => false
    | some st =>
      decide (dist (g.mem ent).X (g.mem ent).Y (g.mem e).X (g.mem e).Y ≤ a.Def.Range)
        && (g.mem ent).HasLos (g.mem e).X (g.mem e).Y 1 1
        && decide (0 < st.HpCur)

/-- The legal-target test in the words of the specification: `e` is not the actor, `e` has
combat stats, the Chebyshev distance between the two positions is at most the range, the actor
has line-of-sight to the 1x1 cell of `e`, and the current health of `e` is positive. -/
def isLegalTarget (a : BasicAttack) (ent : EntPtr) (g : Game) (e : EntPtr) : Bool :=
  decide (e ≠ ent) &&
    match (g.mem e).Stats with
    | none => false
    | some st =>
      decide (max |(g.mem ent).X - (g.mem e).X| |(g.mem ent).Y - (g.mem e).Y| ≤ a.Def.Range)
        && (g.mem ent).HasLos (g.mem e).X (g.mem e).Y 1 1
        && decide (0 < st.HpCur)

/-- The outcome of a resolution that hits, in the words of the specification, for the actor
at `p` with stats `st` and the target at `q` with stats `tst` before the call: finite
ammunition is decremented, the action points of the actor are lowered by the cost, every
configured condition is applied to the target, the health of the target is lowered by the
damage, stats of other entities stay, and one synchronized command is issued in which the
actor plays the animation of the action and the target plays `defend` with the cue `killed`
when its resulting health is 0 or less and `damaged` otherwise. -/
def hitOutcome (a : BasicAttack) (g : Game) (p q : EntPtr) (st tst : Stats)
    (a1 : BasicAttack) (g1 : Game) : Prop :=
  a1.Current_ammo = (if a.Current_ammo > 0 then a.Current_ammo - 1 else a.Current_ammo) ∧
  ∃ st1 tst1, (g1.mem p).Stats = some st1 ∧ st1.ApCur = st.ApCur - a.Def.Ap ∧
    (g1.mem q).Stats = some tst1 ∧ tst1.HpCur = tst.HpCur - a.Def.Damage ∧
    tst1.Conditions = tst.Conditions ++ a.Def.Conditions ∧
    (∀ r, r ≠ p → r ≠ q → (g1.mem r).Stats = (g.mem r).Stats) ∧
    g1.syncCmds = g.syncCmds ++
      [⟨[p, q], [[a.Def.Animation],
        ["defend", if tst1.HpCur ≤ 0 then "killed" else "damaged"]], "hit"⟩]

/-- The outcome of a resolution that misses, in the words of the specification: the health
and the conditions of the target are as before, the target plays `defend` with the cue
`undamaged`, and still the action points of the actor are lowered by the cost and finite
ammunition is decremented. -/
def missOutcome (a : BasicAttack) (g : Game) (p q : EntPtr) (st tst : Stats)
    (a1 : BasicAttack) (g1 : Game) : Prop :=
  a1.Current_ammo = (if a.Current_ammo > 0 then a.Current_ammo - 1 else a.Current_ammo) ∧
  ∃ st1 tst1, (g1.mem p).Stats = some st1 ∧ st1.ApCur = st.ApCur - a.Def.Ap ∧
    (g1.mem q).Stats = some tst1 ∧ tst1.HpCur = tst.HpCur ∧
    tst1.Conditions = tst.Conditions ∧
    (∀ r, r ≠ p → (g1.mem r).Stats = (g.mem r).Stats) ∧
    g1.syncCmds = g.syncCmds ++
      [⟨[p, q], [[a.Def.Animation], ["defend", "undamaged"]], "hit"⟩]

/-- The world that `Maintain` hands to `DoAttack`: the two entities face each other and the
actor, whose stats were `st`, has paid the cost. -/
def attackWorld (a : BasicAttack) (g : Game) (p q : EntPtr) (st : Stats) : Game :=
  (faceEachOther g p q).setStats p (st.ApplyDamage (-a.Def.Ap) 0 Unspecified)

/-! ## Sample data -/

/-- An entity with the given id, position, side, stats and sprite state that sees every
cell. -/
def sampleEnt (id x y side : Int) (st : Option Stats) (sprite : String) : Entity :=
  { Id := id, X := x, Y := y, side := side, Stats := st, Info := ⟨0, 0⟩,
    los := fun _ _ _ _ => true, spriteState := sprite, facing := none }

/-- A heap of four entities: the actor at address 0, a living enemy next to it at address 1,
a dead enemy at address 2 and a living enemy five cells away at address 3; every other address
holds a statless prop. -/
def sampleMem : EntPtr → Entity
  | 0 => sampleEnt 10 0 0 1 (some ⟨4, 8, []⟩) "ready"
  | 1 => sampleEnt 11 1 1 2 (some ⟨3, 10, []⟩) "ready"
  | 2 => sampleEnt 12 0 1 2 (some ⟨3, 0, []⟩) "ready"
  | 3 => sampleEnt 13 5 0 2 (some ⟨3, 7, []⟩) "ready"
  | _ => sampleEnt 99 9 9 0 none "ready"

/-- A world over `sampleMem` with the given hovered entity. -/
def sampleGame (hovered : Option EntPtr) : Game :=
  { mem := sampleMem, Ents := [0, 1, 2, 3, 4], hovered := hovered, syncCmds := [],
    soundMaps := [] }

/-- A melee attack definition: cost 2, range 1, damage 4, one condition. -/
def sampleDef : BasicAttackDef :=
  { Name := "claw", Kind := "Brutal", Ap := 2, Ammo := 1, Strength := 5, Range := 1,
    Damage := 4, Animation := "melee", Conditions := ["bleeding"], Sounds := none }

/-- An instance of `sampleDef` with the given bound actor and ammunition. -/
def sampleAttack (ent : Option EntPtr) (ammo : Int) : BasicAttack :=
  { Defname := "claw", Def := sampleDef, temp := ⟨ent, [], none⟩, Current_ammo := ammo }

/-- An event group holding a press of the left mouse button. -/
def pressGroup : EventGroup := ⟨fun _ => (true, ⟨EventType.Press⟩)⟩

/-- An event group without any event for the left mouse button. -/
def emptyGroup : EventGroup := ⟨fun _ => (false, ⟨EventType.Other⟩)⟩

/-- A hit determination that always hits. -/
def alwaysHit : AttackOracle := fun _ _ _ _ _ => true

/-- A record from the sample actor (id 10) to the dead enemy (id 12). -/
def deadRecord : basicAttackExec := ⟨⟨10, "claw"⟩, 12⟩

/-- A record from the sample actor (id 10) to the living enemy next to it (id 11). -/
def nearRecord : basicAttackExec := ⟨⟨10, "claw"⟩, 11⟩

/-- An attack that costs 3 action points, with one round left. -/
def heavyAttack : BasicAttack :=
  { Defname := "maul", Def := { sampleDef with Name := "maul", Ap := 3 },
    temp := ⟨none, [], none⟩, Current_ammo := 1 }

/-- The sample world after `heavyAttack` was resolved as a hit on the enemy next to the
actor: the actor is left with 1 action point, the enemy with 6 health. -/
def afterHeavy : Game :=
  commandSync
    (((faceEachOther (bookkeep (sampleGame none) 0 1) 0 1).setStats 0 ⟨1, 8, []⟩).setStats 1
      ⟨3, 6, ["bleeding"]⟩)
    [0, 1] [["melee"], ["defend", "damaged"]] "hit"

/-- A hit determination that always misses. -/
def alwaysMiss : AttackOracle := fun _ _ _ _ _ => false

/-- The sample world in which the enemy next to the actor is down to 3 health. -/
def weakGame : Game := (sampleGame none).setStats 1 ⟨3, 3, []⟩

/-- Sample values for the four modifier key ids. -/
def sampleIds : ModifierIds := ⟨1000, 1001, 1002, 1003⟩

/-- The bytes of the binding `ctrl+shift+a`. -/
def strCtrlShiftA : GoString :=
  [99, 116, 114, 108, 43, 115, 104, 105, 102, 116, 43, 97]

/-- A record from the sample actor (id 10) to the enemy five cells away (id 13). -/
def farRecord : basicAttackExec := ⟨⟨10, "claw"⟩, 13⟩

/-- The bytes of a binding name, `fire`. -/
def strFire : GoString := [102, 105, 114, 101]

/-- A heap in which the actor stands at the origin and a living enemy stands at the smallest
64-bit x coordinate, -2^63. -/
def overflowMem : EntPtr → Entity
  | 0 => sampleEnt 10 0 0 1 (some ⟨4, 8, []⟩) "ready"
  | _ => sampleEnt 11 (-9223372036854775808) 0 2 (some ⟨3, 10, []⟩) "ready"

/-- The world over `overflowMem` with the actor and the one enemy. -/
def overflowGame : Game :=
  { mem := overflowMem, Ents := [0, 1], hovered := none, syncCmds := [], soundMaps := [] }

/-! ## Targeting resolver -/

theorem wrap64_eq (n : Int) (h1 : -9223372036854775808 ≤ n) (h2 : n < 9223372036854775808) :
    wrap64 n = n := by
  unfold wrap64
  omega

/-- The result of `wrap64` is a 64-bit value that differs from the exact result by a multiple
of 2^64. -/
theorem wrap64_range (n : Int) :
    -9223372036854775808 ≤ wrap64 n ∧ wrap64 n < 9223372036854775808 ∧
      (wrap64 n - n) % 18446744073709551616 = 0 := by
  unfold wrap64
  omega

/-- Where neither coordinate difference leaves the 64-bit range, `dist` is the Chebyshev
distance. -/
theorem dist_eq_max (x y x2 y2 : Int) (hx : |x - x2| < 2 ^ 63) (hy : |y - y2| < 2 ^ 63) :
    dist x y x2 y2 = max |x - x2| |y - y2| := by
  have e63 : (2 : Int) ^ 63 = 9223372036854775808 := by norm_num
  rw [e63] at hx hy
  rw [abs_lt] at hx hy
  have w1 : wrap64 (x - x2) = x - x2 := wrap64_eq _ (by omega) (by omega)
  have w2 : wrap64 (y - y2) = y - y2 := wrap64_eq _ (by omega) (by omega)
  have w3 : wrap64 (-(x - x2)) = -(x - x2) := wrap64_eq _ (by omega) (by omega)
  have w4 : wrap64 (-(y - y2)) = -(y - y2) := wrap64_eq _ (by omega) (by omega)
  unfold dist
  simp only [w1, w2, w3, w4]
  have h1 : (if x - x2 < 0 then -(x - x2) else x - x2) = |x - x2| := by
    split_ifs with h
    · exact (abs_of_neg h).symm
    · exact (abs_of_nonneg (not_lt.mp h)).symm
  have h2 : (if y - y2 < 0 then -(y - y2) else y - y2) = |y - y2| := by
    split_ifs with h
    · exact (abs_of_neg h).symm
    · exact (abs_of_nonneg (not_lt.mp h)).symm
  rw [h1, h2]
  split_ifs with h
  · exact (max_eq_left (le_of_lt h)).symm
  · exact (max_eq_right (not_lt.mp h)).symm

/-- Coordinates of absolute value below 2^62 have differences inside the 64-bit range. -/
theorem abs_sub_lt_of_small (x x2 : Int) (h1 : |x| < 2 ^ 62) (h2 : |x2| < 2 ^ 62) :
    |x - x2| < 2 ^ 63 := by
  have e62 : (2 : Int) ^ 62 = 4611686018427387904 := by norm_num
  have e63 : (2 : Int) ^ 63 = 9223372036854775808 := by norm_num
  rw [e62] at h1 h2
  rw [e63]
  rw [abs_lt] at h1 h2
  rw [abs_lt]
  constructor <;> omega

theorem findTargetsStep_eq (a : BasicAttack) (ent : EntPtr) (g : Game) (acc : List EntPtr)
    (e : EntPtr) :
    findTargetsStep a ent g acc e = acc ++ (if passesGuards a ent g e then [e] else []) := by
  unfold findTargetsStep passesGuards
  by_cases he : e = ent
  · simp [he]
  · cases hst : (g.mem e).Stats with
    | none => simp [he]
    | some st =>
      simp only [he, if_false, Entity.Pos, ne_eq, not_false_eq_true,
        decide_True, Bool.true_and, gt_iff_lt]
      split_ifs <;> simp

theorem foldl_findTargetsStep (a : BasicAttack) (ent : EntPtr) (g : Game) (l : List EntPtr) :
    ∀ acc, l.foldl (findTargetsStep a ent g) acc = acc ++ l.filter (passesGuards a ent g) := by
  induction l with
  | nil => intro acc; simp
  | cons e l ih =>
    intro acc
    rw [List.foldl_cons, ih, findTargetsStep_eq, List.filter_cons]
    split_ifs <;> simp

/-- The loop of `findTargets` keeps, in order, the entities that pass its guards. -/
theorem findTargets_eq_filter_guards (a : BasicAttack) (ent : EntPtr) (g : Game) :
    findTargets a ent g = g.Ents.filter (passesGuards a ent g) := by
  unfold findTargets
  rw [foldl_findTargetsStep]
  simp

theorem passesGuards_iff (a : BasicAttack) (ent : EntPtr) (g : Game) (e : EntPtr) :
    passesGuards a ent g e = true ↔
      e ≠ ent ∧ ∃ st, (g.mem e).Stats = some st ∧
        dist (g.mem ent).X (g.mem ent).Y (g.mem e).X (g.mem e).Y ≤ a.Def.Range ∧
        (g.mem ent).HasLos (g.mem e).X (g.mem e).Y 1 1 = true ∧ 0 < st.HpCur := by
  unfold passesGuards
  cases hst : (g.mem e).Stats with
  | none => simp
  | some st => simp [and_assoc]

/-- Membership in the result of `findTargets`, with the distance as `dist` computes it. -/
theorem mem_findTargets_guards (a : BasicAttack) (ent : EntPtr) (g : Game) (e : EntPtr) :
    e ∈ findTargets a ent g ↔
      e ∈ g.Ents ∧ e ≠ ent ∧ ∃ st, (g.mem e).Stats = some st ∧
        dist (g.mem ent).X (g.mem ent).Y (g.mem e).X (g.mem e).Y ≤ a.Def.Range ∧
        (g.mem ent).HasLos (g.mem e).X (g.mem e).Y 1 1 = true ∧ 0 < st.HpCur := by
  rw [findTargets_eq_filter_guards, List.mem_filter, passesGuards_iff]

theorem passesGuards_eq_isLegalTarget (a : BasicAttack) (ent : EntPtr) (g : Game) (e : EntPtr)
    (hx : |(g.mem ent).X - (g.mem e).X| < 2 ^ 63)
    (hy : |(g.mem ent).Y - (g.mem e).Y| < 2 ^ 63) :
    passesGuards a ent g e = isLegalTarget a ent g e := by
  unfold passesGuards isLegalTarget
  rw [dist_eq_max _ _ _ _ hx hy]

theorem findTargets_eq_filter (a : BasicAttack) (ent : EntPtr) (g : Game)
    (hfit : ∀ e ∈ g.Ents, |(g.mem ent).X - (g.mem e).X| < 2 ^ 63 ∧
      |(g.mem ent).Y - (g.mem e).Y| < 2 ^ 63) :
    findTargets a ent g = g.Ents.filter (isLegalTarget a ent g) := by
  rw [findTargets_eq_filter_guards]
  apply List.filter_congr
  intro e he
  exact passesGuards_eq_isLegalTarget a ent g e (hfit e he).1 (hfit e he).2

theorem isLegalTarget_iff (a : BasicAttack) (ent : EntPtr) (g : Game) (e : EntPtr) :
    isLegalTarget a ent g e = true ↔
      e ≠ ent ∧ ∃ st, (g.mem e).Stats = some st ∧
        max |(g.mem ent).X - (g.mem e).X| |(g.mem ent).Y - (g.mem e).Y| ≤ a.Def.Range ∧
        (g.mem ent).HasLos (g.mem e).X (g.mem e).Y 1 1 = true ∧ 0 < st.HpCur := by
  unfold isLegalTarget
  cases hst : (g.mem e).Stats with
  | none => simp
  | some st => simp [and_assoc]

theorem mem_findTargets (a : BasicAttack) (ent : EntPtr) (g : Game)
    (hfit : ∀ e ∈ g.Ents, |(g.mem ent).X - (g.mem e).X| < 2 ^ 63 ∧
      |(g.mem ent).Y - (g.mem e).Y| < 2 ^ 63) (e : EntPtr) :
    e ∈ findTargets a ent g ↔
      e ∈ g.Ents ∧ e ≠ ent ∧ ∃ st, (g.mem e).Stats = some st ∧
        max |(g.mem ent).X - (g.mem e).X| |(g.mem ent).Y - (g.mem e).Y| ≤ a.Def.Range ∧
        (g.mem ent).HasLos (g.mem e).X (g.mem e).Y 1 1 = true ∧ 0 < st.HpCur := by
  rw [findTargets_eq_filter a ent g hfit, List.mem_filter, isLegalTarget_iff]

/-- C1, the claim as stated fails: with the actor at the origin, range 1 and a living enemy at
x = -2^63, the subtraction in `dist` wraps, `dist` returns 0, and `findTargets` returns that
enemy although its Chebyshev distance from the actor is 2^63. -/
theorem findTargets_wraps_at_int64 :
    dist 0 0 (-9223372036854775808) 0 = 0 ∧
      max |(0 : Int) - (-9223372036854775808)| |(0 : Int) - 0| = 2 ^ 63 ∧
      findTargets (sampleAttack none 1) 0 overflowGame = [1] ∧
      (sampleAttack none 1).Def.Range = 1 ∧
      max |(overflowGame.mem 0).X - (overflowGame.mem 1).X|
        |(overflowGame.mem 0).Y - (overflowGame.mem 1).Y| = 2 ^ 63 ∧
      isLegalTarget (sampleAttack none 1) 0 overflowGame 1 = false := by
  refine ⟨by decide, by decide, by decide, rfl, by decide, by decide⟩

/-- C1, amended: wherever the coordinate differences stay inside the 64-bit range
(|dx| < 2^63 and |dy| < 2^63, which holds whenever all coordinates are below 2^62 in
absolute value), `dist` is the Chebyshev distance `max(|dx|,|dy|)`; and for every actor and
every entity collection whose coordinate differences to the actor stay inside that range,
`findTargets` returns, in the order of the collection, exactly the entities that are not the
actor, have combat stats, lie within Chebyshev distance `Range` of the actor, are in the line
of sight of the actor and have current health above 0.  On every input the result holds
neither the actor nor an entity whose health is 0 or less. -/
theorem findTargets_spec (a : BasicAttack) (ent : EntPtr) (g : Game) :
    (∀ x y x2 y2 : Int, |x - x2| < 2 ^ 63 → |y - y2| < 2 ^ 63 →
      dist x y x2 y2 = max |x - x2| |y - y2|) ∧
    (∀ x x2 : Int, |x| < 2 ^ 62 → |x2| < 2 ^ 62 → |x - x2| < 2 ^ 63) ∧
    ((∀ e ∈ g.Ents, |(g.mem ent).X - (g.mem e).X| < 2 ^ 63 ∧
        |(g.mem ent).Y - (g.mem e).Y| < 2 ^ 63) →
      findTargets a ent g = g.Ents.filter (isLegalTarget a ent g) ∧
      ∀ e, e ∈ findTargets a ent g ↔
        e ∈ g.Ents ∧ e ≠ ent ∧ ∃ st, (g.mem e).Stats = some st ∧
          max |(g.mem ent).X - (g.mem e).X| |(g.mem ent).Y - (g.mem e).Y| ≤ a.Def.Range ∧
          (g.mem ent).HasLos (g.mem e).X (g.mem e).Y 1 1 = true ∧ 0 < st.HpCur) ∧
    ent ∉ findTargets a ent g ∧
    (∀ e st, (g.mem e).Stats = some st → st.HpCur ≤ 0 → e ∉ findTargets a ent g) := by
  refine ⟨dist_eq_max, abs_sub_lt_of_small, ?_, ?_, ?_⟩
  · intro hfit
    exact ⟨findTargets_eq_filter a ent g hfit, mem_findTargets a ent g hfit⟩
  · intro h
    exact ((mem_findTargets_guards a ent g ent).mp h).2.1 rfl
  · intro e st hst hhp h
    obtain ⟨-, -, st2, hst2, -, -, hpos⟩ := (mem_findTargets_guards a ent g e).mp h
    rw [hst] at hst2
    cases hst2
    omega

/-- In the sample world all coordinates are small, the result of `findTargets` is the filter of
the collection by the legal-target test, and the only legal target of the actor is the living
enemy next to it. -/
theorem findTargets_spec_witness :
    (∀ e ∈ (sampleGame none).Ents,
      |((sampleGame none).mem 0).X - ((sampleGame none).mem e).X| < 2 ^ 63 ∧
        |((sampleGame none).mem 0).Y - ((sampleGame none).mem e).Y| < 2 ^ 63) ∧
      findTargets (sampleAttack none 1) 0 (sampleGame none)
        = (sampleGame none).Ents.filter (isLegalTarget (sampleAttack none 1) 0 (sampleGame none)) ∧
      findTargets (sampleAttack none 1) 0 (sampleGame none) = [1] ∧
      (2 : EntPtr) ∉ findTargets (sampleAttack none 1) 0 (sampleGame none) := by
  refine ⟨by decide, ?_, by decide, ?_⟩
  · exact ((findTargets_spec (sampleAttack none 1) 0 (sampleGame none)).2.2.1 (by decide)).1
  · exact (findTargets_spec (sampleAttack none 1) 0 (sampleGame none)).2.2.2.2 2 ⟨3, 0, []⟩
      rfl (by decide)

/-! ## Preppable -/

/-- C2: for an actor with stats, `Preppable` returns true exactly when the remaining
ammunition is not 0, the current action points of the actor reach the cost of the action, and
`findTargets` returns a non-empty list.  `Preppable` has no write in its body: its embedding
returns the Boolean only, so neither the instance nor the world can change. -/
theorem Preppable_iff (a : BasicAttack) (ent : EntPtr) (g : Game) (st : Stats)
    (hst : (g.mem ent).Stats = some st) :
    Preppable a ent g =
        some (decide (a.Current_ammo ≠ 0 ∧ st.ApCur ≥ a.Def.Ap ∧ findTargets a ent g ≠ [])) ∧
      (Preppable a ent g = some true ↔
        a.Current_ammo ≠ 0 ∧ st.ApCur ≥ a.Def.Ap ∧ findTargets a ent g ≠ []) ∧
      (Preppable a ent g = some false ↔
        a.Current_ammo = 0 ∨ st.ApCur < a.Def.Ap ∧ a.Current_ammo ≠ 0 ∨
          findTargets a ent g = [] ∧ a.Current_ammo ≠ 0 ∧ st.ApCur ≥ a.Def.Ap) := by
  have key : Preppable a ent g =
      some (decide (a.Current_ammo ≠ 0 ∧ st.ApCur ≥ a.Def.Ap ∧ findTargets a ent g ≠ [])) := by
    unfold Preppable
    by_cases h0 : a.Current_ammo = 0
    · simp [h0]
    · simp only [ne_eq, h0, not_false_eq_true, if_true, hst, true_and]
      congr 1
      rw [Bool.decide_and]
      congr 1
      simp [List.length_pos]
  refine ⟨key, ?_, ?_⟩
  · rw [key]
    simp
  · rw [key]
    simp only [Option.some.injEq, decide_eq_false_iff_not]
    by_cases h0 : a.Current_ammo = 0
    · simp [h0]
    · by_cases h1 : st.ApCur ≥ a.Def.Ap
      · have h1n : ¬ st.ApCur < a.Def.Ap := not_lt.mpr h1
        simp [h0, h1, h1n]
      · have h1n : st.ApCur < a.Def.Ap := not_le.mp h1
        simp [h0, h1, h1n]

/-- In the sample world the actor (4 action points, cost 2, one round left, one enemy in
reach) can prepare the attack. -/
theorem Preppable_iff_witness :
    ((sampleGame none).mem 0).Stats = some ⟨4, 8, []⟩ ∧
      Preppable (sampleAttack none 1) 0 (sampleGame none) = some true := by
  refine ⟨rfl, ?_⟩
  rw [(Preppable_iff (sampleAttack none 1) 0 (sampleGame none) ⟨4, 8, []⟩ rfl).1]
  decide

/-! ## HandleInput -/

/-- The value of `HandleInput` on a press of the left mouse button while an entity with stats
is hovered and the instance is bound to an actor with stats. -/
theorem HandleInput_press (a : BasicAttack) (group : EventGroup) (g : Game)
    (target ent : EntPtr) (tst st : Stats)
    (hhov : g.HoveredEnt = some target) (htst : (g.mem target).Stats = some tst)
    (hfound : (group.FindEvent MouseLButton).1 = true)
    (hpress : (group.FindEvent MouseLButton).2.Typ = EventType.Press)
    (hent : a.temp.ent = some ent) (hst : (g.mem ent).Stats = some st) :
    HandleInput a group g =
      some (true,
        if 0 < tst.HpCur ∧ (g.mem ent).HasLos (g.mem target).X (g.mem target).Y 1 1 = true ∧
            st.ApCur ≥ a.Def.Ap then
          some (makeExec a (g.mem ent) (g.mem target))
        else none) := by
  unfold HandleInput
  simp only [hhov, htst, hfound, hpress, hent, hst, decide_True, Bool.and_self, if_true,
    Entity.Pos]
  by_cases h1 : st.ApCur ≥ a.Def.Ap <;> by_cases h2 : 0 < tst.HpCur <;>
    by_cases h3 : (g.mem ent).HasLos (g.mem target).X (g.mem target).Y 1 1 = true <;>
    simp [h1, h2, h3]

/-- The value of `HandleInput` when the left mouse button was not pressed, when nothing is
hovered, or when the hovered entity has no stats. -/
theorem HandleInput_declined (a : BasicAttack) (group : EventGroup) (g : Game)
    (h : ¬ ((group.FindEvent MouseLButton).1 = true ∧
          (group.FindEvent MouseLButton).2.Typ = EventType.Press) ∨
        g.HoveredEnt = none ∨
        ∃ target, g.HoveredEnt = some target ∧ (g.mem target).Stats = none) :
    HandleInput a group g = some (false, none) := by
  unfold HandleInput
  rcases h with h | h | ⟨target, h1, h2⟩
  · cases hh : g.HoveredEnt with
    | none => rfl
    | some target =>
      cases hs : (g.mem target).Stats with
      | none => simp only [hs]
      | some tst =>
        have hc : ((group.FindEvent MouseLButton).1 &&
            decide ((group.FindEvent MouseLButton).2.Typ = EventType.Press)) = false := by
          rw [Bool.eq_false_iff]
          intro hc
          rw [Bool.and_eq_true, decide_eq_true_eq] at hc
          exact h hc
        simp only [hs, hc, Bool.false_eq_true, if_false]
  · simp only [h]
  · simp only [h1, h2]

/-- C3, the claim as stated fails: with a press of the left mouse button and a hovered entity
that has no stats, `HandleInput` does not consume the event. -/
theorem HandleInput_statless_hover_not_consumed :
    (sampleGame (some 4)).HoveredEnt = some 4 ∧
      (pressGroup.FindEvent MouseLButton).1 = true ∧
      (pressGroup.FindEvent MouseLButton).2.Typ = EventType.Press ∧
      HandleInput (sampleAttack (some 0) 1) pressGroup (sampleGame (some 4))
        = some (false, none) := by
  refine ⟨rfl, rfl, rfl, rfl⟩

/-- C3, amended: on every press of the left mouse button received while an entity with combat
stats is hovered, the instance being bound to an actor with stats, `HandleInput` reports
the event as consumed whether or not the hovered entity is a valid target; when there is no
such press event, no hovered entity, or the hovered entity has no combat stats, it returns
false and no record. -/
theorem HandleInput_consumes (a : BasicAttack) (group : EventGroup) (g : Game) :
    (∀ target ent tst st, g.HoveredEnt = some target → (g.mem target).Stats = some tst →
      (group.FindEvent MouseLButton).1 = true →
      (group.FindEvent MouseLButton).2.Typ = EventType.Press →
      a.temp.ent = some ent → (g.mem ent).Stats = some st →
      ∃ r, HandleInput a group g = some (true, r)) ∧
    (¬ ((group.FindEvent MouseLButton).1 = true ∧
          (group.FindEvent MouseLButton).2.Typ = EventType.Press) →
      HandleInput a group g = some (false, none)) ∧
    (g.HoveredEnt = none → HandleInput a group g = some (false, none)) ∧
    (∀ target, g.HoveredEnt = some target → (g.mem target).Stats = none →
      HandleInput a group g = some (false, none)) := by
  refine ⟨?_, ?_, ?_, ?_⟩
  · intro target ent tst st h1 h2 h3 h4 h5 h6
    exact ⟨_, HandleInput_press a group g target ent tst st h1 h2 h3 h4 h5 h6⟩
  · intro h
    exact HandleInput_declined a group g (Or.inl h)
  · intro h
    exact HandleInput_declined a group g (Or.inr (Or.inl h))
  · intro target h1 h2
    exact HandleInput_declined a group g (Or.inr (Or.inr ⟨target, h1, h2⟩))

/-- A press on the dead enemy of the sample world is consumed without a record, and without
a press nothing is consumed. -/
theorem HandleInput_consumes_witness :
    (∃ r, HandleInput (sampleAttack (some 0) 1) pressGroup (sampleGame (some 2))
        = some (true, r)) ∧
      HandleInput (sampleAttack (some 0) 1) pressGroup (sampleGame (some 2))
        = some (true, none) ∧
      HandleInput (sampleAttack (some 0) 1) emptyGroup (sampleGame (some 2))
        = some (false, none) :=
  ⟨(HandleInput_consumes (sampleAttack (some 0) 1) pressGroup (sampleGame (some 2))).1
      2 0 ⟨3, 0, []⟩ ⟨4, 8, []⟩ rfl rfl rfl rfl rfl rfl,
    by decide,
    (HandleInput_consumes (sampleAttack (some 0) 1) emptyGroup (sampleGame (some 2))).2.1
      (by decide)⟩

/-- C4: on a press of the left mouse button with a hovered entity that has stats,
`HandleInput` returns an execution record exactly when the health of the hovered entity
is above 0, the bound actor has line-of-sight to the cell of the hovered entity, and the
current action points of the bound actor reach the cost; the record then carries the id of
the bound actor as acting entity and the id of the hovered entity as target. -/
theorem HandleInput_record_iff (a : BasicAttack) (group : EventGroup) (g : Game)
    (target ent : EntPtr) (tst st : Stats)
    (hhov : g.HoveredEnt = some target) (htst : (g.mem target).Stats = some tst)
    (hfound : (group.FindEvent MouseLButton).1 = true)
    (hpress : (group.FindEvent MouseLButton).2.Typ = EventType.Press)
    (hent : a.temp.ent = some ent) (hst : (g.mem ent).Stats = some st) :
    ((∃ b r, HandleInput a group g = some (b, some r)) ↔
        0 < tst.HpCur ∧ (g.mem ent).HasLos (g.mem target).X (g.mem target).Y 1 1 = true ∧
          st.ApCur ≥ a.Def.Ap) ∧
      (∀ b r, HandleInput a group g = some (b, some r) →
        b = true ∧ r.EntityId = (g.mem ent).Id ∧ r.Target = (g.mem target).Id) := by
  rw [HandleInput_press a group g target ent tst st hhov htst hfound hpress hent hst]
  by_cases hc : 0 < tst.HpCur ∧
      (g.mem ent).HasLos (g.mem target).X (g.mem target).Y 1 1 = true ∧ st.ApCur ≥ a.Def.Ap
  · rw [if_pos hc]
    refine ⟨⟨fun _ => hc, fun _ => ⟨true, _, rfl⟩⟩, ?_⟩
    intro b r h
    simp only [Option.some.injEq, Prod.mk.injEq] at h
    obtain ⟨hb, hr⟩ := h
    subst hr
    exact ⟨hb.symm, rfl, rfl⟩
  · rw [if_neg hc]
    refine ⟨⟨?_, fun h => absurd h hc⟩, ?_⟩
    · rintro ⟨b, r, h⟩
      simp at h
    · intro b r h
      simp at h

/-- A press on the living enemy next to the actor yields the record from actor 10 to
target 11. -/
theorem HandleInput_record_iff_witness :
    (∃ b r, HandleInput (sampleAttack (some 0) 1) pressGroup (sampleGame (some 1))
        = some (b, some r)) ∧
      HandleInput (sampleAttack (some 0) 1) pressGroup (sampleGame (some 1))
        = some (true, some ⟨⟨10, "claw"⟩, 11⟩) :=
  ⟨(HandleInput_record_iff (sampleAttack (some 0) 1) pressGroup (sampleGame (some 1))
      1 0 ⟨3, 10, []⟩ ⟨4, 8, []⟩ rfl rfl rfl rfl rfl rfl).1.mpr
      ⟨by decide, rfl, by decide⟩,
    by decide⟩

/-- C5, the code at the failing inputs: a press while the enemy five cells away is hovered
(range 1) yields a record although that enemy is not among the legal targets, and a press
while the actor itself is hovered yields a record from the actor to itself. -/
theorem HandleInput_record_not_legal_target :
    HandleInput (sampleAttack (some 0) 1) pressGroup (sampleGame (some 3))
        = some (true, some ⟨⟨10, "claw"⟩, 13⟩) ∧
      (3 : EntPtr) ∉ findTargets (sampleAttack (some 0) 1) 0 (sampleGame (some 3)) ∧
      dist 0 0 5 0 = 5 ∧ (sampleAttack (some 0) 1).Def.Range = 1 ∧
      HandleInput (sampleAttack (some 0) 1) pressGroup (sampleGame (some 0))
        = some (true, some ⟨⟨10, "claw"⟩, 10⟩) ∧
      (0 : EntPtr) ∉ findTargets (sampleAttack (some 0) 1) 0 (sampleGame (some 0)) := by
  refine ⟨by decide, by decide, by decide, rfl, by decide, by decide⟩

/-! ## AiAttackTarget -/

/-- C6, the claim as stated fails: with the actor at the origin, range 1 and a living enemy
of the other side at x = -2^63, the subtraction in `dist` wraps to a distance of 0 and
`AiAttackTarget` returns a record although the Chebyshev distance between the two, 2^63,
exceeds the range. -/
theorem AiAttackTarget_wraps_at_int64 :
    (overflowGame.mem 0).Side ≠ (overflowGame.mem 1).Side ∧
      (overflowGame.mem 0).Stats = some ⟨4, 8, []⟩ ∧
      (sampleAttack none 1).Def.Ap = 2 ∧ (sampleAttack none 1).Def.Range = 1 ∧
      max |(overflowGame.mem 0).X - (overflowGame.mem 1).X|
        |(overflowGame.mem 0).Y - (overflowGame.mem 1).Y| = 2 ^ 63 ∧
      AiAttackTarget (sampleAttack none 1) 0 1 overflowGame
        = some (some ⟨⟨10, "claw"⟩, 11⟩) := by
  refine ⟨by decide, rfl, rfl, rfl, by decide, by decide⟩

/-- C6, amended: for an actor with stats and a candidate target whose coordinate differences
stay inside the 64-bit range (|dx| < 2^63 and |dy| < 2^63), `AiAttackTarget` returns no
record when the two entities are on the same side, or the current action points of the actor
are below the cost, or the Chebyshev distance between them exceeds the range; otherwise it
returns the record whose acting entity is the actor and whose target is the candidate.
Same-side candidates are declined whether or not the actor has stats, and every record
returned carries the id of the actor and the id of the candidate.  The embedding is a function
of the instance, the two entities and the world only, and it returns no updated state. -/
theorem AiAttackTarget_spec (a : BasicAttack) (ent target : EntPtr) (g : Game) :
    ((g.mem ent).Side = (g.mem target).Side → AiAttackTarget a ent target g = some none) ∧
    (∀ st, (g.mem ent).Stats = some st →
      |(g.mem ent).X - (g.mem target).X| < 2 ^ 63 →
      |(g.mem ent).Y - (g.mem target).Y| < 2 ^ 63 →
      AiAttackTarget a ent target g =
        some (if (g.mem ent).Side = (g.mem target).Side ∨ st.ApCur < a.Def.Ap ∨
                max |(g.mem ent).X - (g.mem target).X| |(g.mem ent).Y - (g.mem target).Y|
                  > a.Def.Range then
              none
            else some ⟨⟨(g.mem ent).Id, a.Defname⟩, (g.mem target).Id⟩)) ∧
    (∀ r, AiAttackTarget a ent target g = some (some r) →
      r.EntityId = (g.mem ent).Id ∧ r.Target = (g.mem target).Id) := by
  refine ⟨?_, ?_, ?_⟩
  · intro h
    unfold AiAttackTarget
    rw [if_pos h]
  · intro st hst hx hy
    have hd := dist_eq_max (g.mem ent).X (g.mem ent).Y (g.mem target).X (g.mem target).Y hx hy
    unfold AiAttackTarget
    by_cases h1 : (g.mem ent).Side = (g.mem target).Side
    · simp [h1]
    · by_cases h2 : st.ApCur < a.Def.Ap
      · simp [h1, h2, hst]
      · by_cases h3 : max |(g.mem ent).X - (g.mem target).X| |(g.mem ent).Y - (g.mem target).Y|
            > a.Def.Range
        · simp only [h1, h2, hst, if_false, hd, Entity.Pos, h3, if_true, or_true]
        · simp only [h1, h2, hst, if_false, hd, Entity.Pos, h3, or_self, makeExec]
  · intro r h
    unfold AiAttackTarget at h
    split_ifs at h with h1
    · simp at h
    · cases hst : (g.mem ent).Stats with
      | none => simp [hst] at h
      | some st =>
        simp only [hst] at h
        split_ifs at h with h2 h3
        · simp at h
        · simp at h
        · simp only [Option.some.injEq] at h
          subst h
          exact ⟨rfl, rfl⟩

/-- In the sample world the actor may attack the living enemy next to it, but not the enemy
five cells away. -/
theorem AiAttackTarget_spec_witness :
    AiAttackTarget (sampleAttack none 1) 0 1 (sampleGame none)
        = some (some ⟨⟨10, "claw"⟩, 11⟩) ∧
      AiAttackTarget (sampleAttack none 1) 0 3 (sampleGame none) = some none := by
  refine ⟨?_, ?_⟩
  · rw [(AiAttackTarget_spec (sampleAttack none 1) 0 1 (sampleGame none)).2.1 ⟨4, 8, []⟩ rfl
      (by decide) (by decide)]
    decide
  · rw [(AiAttackTarget_spec (sampleAttack none 1) 0 3 (sampleGame none)).2.1 ⟨4, 8, []⟩ rfl
      (by decide) (by decide)]
    decide

/-! ## Declining on ammunition and target liveness -/

/-- C7, the claim as stated fails: with the remaining ammunition at exactly 0 both
`AiAttackTarget` and `HandleInput` still produce a record, and `AiAttackTarget` produces a
record for a target whose health is 0. -/
theorem records_despite_empty_ammo_or_dead_target :
    (sampleAttack (some 0) 0).Current_ammo = 0 ∧
      AiAttackTarget (sampleAttack (some 0) 0) 0 1 (sampleGame (some 1))
        = some (some ⟨⟨10, "claw"⟩, 11⟩) ∧
      HandleInput (sampleAttack (some 0) 0) pressGroup (sampleGame (some 1))
        = some (true, some ⟨⟨10, "claw"⟩, 11⟩) ∧
      ((sampleGame none).mem 2).Stats = some ⟨3, 0, []⟩ ∧
      AiAttackTarget (sampleAttack none 1) 0 2 (sampleGame none)
        = some (some ⟨⟨10, "claw"⟩, 12⟩) := by
  refine ⟨rfl, by decide, by decide, rfl, by decide⟩

/-- C7, amended: in every state in which the remaining ammunition is exactly 0, `Preppable`
returns false and `Prep` returns false leaving instance and world as they are; in every state
in which no entity other than the actor has stats with health above 0, `Preppable` and `Prep`
do not return true; and in every state in which the health of the hovered target is 0 or
less, `HandleInput` produces no execution record. -/
theorem declines_on_ammo_and_liveness (a : BasicAttack) (ent : EntPtr) (g : Game)
    (group : EventGroup) :
    (a.Current_ammo = 0 →
      Preppable a ent g = some false ∧ Prep a ent g = some (false, a, g)) ∧
    ((∀ e ∈ g.Ents, e ≠ ent → ∀ st, (g.mem e).Stats = some st → st.HpCur ≤ 0) →
      Preppable a ent g ≠ some true ∧ ∀ a1 g1, Prep a ent g ≠ some (true, a1, g1)) ∧
    (∀ target tst, g.HoveredEnt = some target → (g.mem target).Stats = some tst →
      tst.HpCur ≤ 0 → ∀ b r, HandleInput a group g ≠ some (b, some r)) := by
  refine ⟨?_, ?_, ?_⟩
  · intro h0
    have hp : Preppable a ent g = some false := by
      unfold Preppable
      simp [h0]
    refine ⟨hp, ?_⟩
    unfold Prep
    rw [hp]
  · intro hdead
    have hnil : findTargets a ent g = [] := by
      rw [List.eq_nil_iff_forall_not_mem]
      intro e he
      obtain ⟨hin, hne, st, hst, -, -, hpos⟩ := (mem_findTargets_guards a ent g e).mp he
      have := hdead e hin hne st hst
      omega
    have hp : Preppable a ent g ≠ some true := by
      unfold Preppable
      split_ifs with h0
      · cases hst : (g.mem ent).Stats with
        | none => simp
        | some st => simp [hnil]
      · simp
    refine ⟨hp, ?_⟩
    intro a1 g1 h
    unfold Prep at h
    cases hpp : Preppable a ent g with
    | none => simp [hpp] at h
    | some b =>
      cases b with
      | false => simp [hpp] at h
      | true => exact hp hpp
  · intro target tst hhov htst hhp b r h
    unfold HandleInput at h
    simp only [hhov, htst] at h
    split_ifs at h with hc
    · cases hent : a.temp.ent with
      | none => simp [hent] at h
      | some p =>
        cases hst : (g.mem p).Stats with
        | none => simp [hent, hst] at h
        | some st =>
          simp only [hent, hst] at h
          have hn : ¬ tst.HpCur > 0 := by omega
          simp [hn] at h
    · simp at h

/-- With an empty magazine the sample actor cannot prepare, and a press on the dead enemy
yields no record. -/
theorem declines_on_ammo_and_liveness_witness :
    Preppable (sampleAttack none 0) 0 (sampleGame (some 2)) = some false ∧
      ∀ b r, HandleInput (sampleAttack (some 0) 1) pressGroup (sampleGame (some 2))
        ≠ some (b, some r) :=
  ⟨((declines_on_ammo_and_liveness (sampleAttack none 0) 0 (sampleGame (some 2))
      pressGroup).1 rfl).1,
    (declines_on_ammo_and_liveness (sampleAttack (some 0) 1) 0 (sampleGame (some 2))
      pressGroup).2.2 2 ⟨3, 0, []⟩ rfl rfl (by decide)⟩

/-! ## Maintain: binding, bookkeeping and validation -/

theorem modify_mem (g : Game) (p : EntPtr) (f : Entity → Entity) (r : EntPtr) :
    (g.modify p f).mem r = if r = p then f (g.mem p) else g.mem r := by
  unfold Game.modify
  simp only [Function.update_apply]

theorem bookkeep_mem (g : Game) (p q r : EntPtr) :
    ∃ i, (bookkeep g p q).mem r = { g.mem r with Info := i } := by
  unfold bookkeep
  simp only [modify_mem]
  split_ifs <;> subst_vars <;> exact ⟨_, rfl⟩

theorem bookkeep_Stats (g : Game) (p q r : EntPtr) :
    ((bookkeep g p q).mem r).Stats = (g.mem r).Stats := by
  obtain ⟨i, hi⟩ := bookkeep_mem g p q r
  rw [hi]

theorem bookkeep_Id (g : Game) (p q r : EntPtr) :
    ((bookkeep g p q).mem r).Id = (g.mem r).Id := by
  obtain ⟨i, hi⟩ := bookkeep_mem g p q r
  rw [hi]

theorem bookkeep_Pos (g : Game) (p q r : EntPtr) :
    ((bookkeep g p q).mem r).Pos = (g.mem r).Pos := by
  obtain ⟨i, hi⟩ := bookkeep_mem g p q r
  rw [hi]
  rfl

theorem bookkeep_spriteState (g : Game) (p q r : EntPtr) :
    ((bookkeep g p q).mem r).spriteState = (g.mem r).spriteState := by
  obtain ⟨i, hi⟩ := bookkeep_mem g p q r
  rw [hi]

theorem bookkeep_dist (g : Game) (p q r t : EntPtr) :
    distBetweenEnts ((bookkeep g p q).mem r) ((bookkeep g p q).mem t)
      = distBetweenEnts (g.mem r) (g.mem t) := by
  unfold distBetweenEnts
  rw [bookkeep_Pos, bookkeep_Pos]

theorem lookupId_congr (m1 m2 : EntPtr → Entity) (h : ∀ r, (m1 r).Id = (m2 r).Id)
    (id : EntityId) (l : List EntPtr) : lookupId m1 id l = lookupId m2 id l := by
  induction l with
  | nil => rfl
  | cons p ps ih => simp only [lookupId, h, ih]

theorem bookkeep_EntityById (g : Game) (p q : EntPtr) (id : EntityId) :
    (bookkeep g p q).EntityById id = g.EntityById id := by
  unfold Game.EntityById
  exact lookupId_congr _ _ (bookkeep_Id g p q) id _

theorem maintainBind_eq (a : BasicAttack) (g : Game) (exec : basicAttackExec)
    (p q : EntPtr) (st tst : Stats)
    (hp : g.EntityById exec.EntityId = some p) (hq : g.EntityById exec.Target = some q)
    (hst : (g.mem p).Stats = some st) (htst : (g.mem q).Stats = some tst) :
    maintainBind a g exec =
      some (decide (a.Def.Ap > st.ApCur ∨ tst.HpCur ≤ 0 ∨
          distBetweenEnts (g.mem p) (g.mem q) > a.Def.Range), bindEnts a p q,
        bookkeep g p q) := by
  unfold maintainBind
  simp only [hp, hq, bookkeep_Stats, hst, htst, bookkeep_dist]
  have hd : (bindEnts a p q).Def = a.Def := rfl
  rw [hd]
  by_cases h1 : a.Def.Ap > st.ApCur
  · simp [h1]
  · by_cases h2 : tst.HpCur ≤ 0
    · simp [h1, h2]
    · by_cases h3 : distBetweenEnts (g.mem p) (g.mem q) > a.Def.Range
      · simp [h1, h2, h3]
      · simp [h1, h2, h3]

theorem Maintain_invalid (doAttack : AttackOracle) (a : BasicAttack) (dt : Int) (g : Game)
    (exec : basicAttackExec) (p q : EntPtr) (st tst : Stats)
    (hp : g.EntityById exec.EntityId = some p) (hq : g.EntityById exec.Target = some q)
    (hst : (g.mem p).Stats = some st) (htst : (g.mem q).Stats = some tst)
    (hbad : a.Def.Ap > st.ApCur ∨ tst.HpCur ≤ 0 ∨
      distBetweenEnts (g.mem p) (g.mem q) > a.Def.Range) :
    Maintain doAttack a dt g (some exec)
      = some (MaintenanceStatus.Complete, bindEnts a p q, bookkeep g p q) := by
  unfold Maintain
  simp only [maintainBind_eq a g exec p q st tst hp hq hst htst, hbad, decide_True]

theorem Maintain_waiting (doAttack : AttackOracle) (a : BasicAttack) (dt : Int) (g : Game)
    (exec : basicAttackExec) (p q : EntPtr) (st tst : Stats)
    (hp : g.EntityById exec.EntityId = some p) (hq : g.EntityById exec.Target = some q)
    (hst : (g.mem p).Stats = some st) (htst : (g.mem q).Stats = some tst)
    (hok : ¬ (a.Def.Ap > st.ApCur ∨ tst.HpCur ≤ 0 ∨
      distBetweenEnts (g.mem p) (g.mem q) > a.Def.Range))
    (hbusy : (g.mem p).spriteState ≠ "ready" ∨ (g.mem q).spriteState ≠ "ready") :
    Maintain doAttack a dt g (some exec)
      = some (MaintenanceStatus.InProgress, bindEnts a p q, bookkeep g p q) := by
  unfold Maintain
  simp only [maintainBind_eq a g exec p q st tst hp hq hst htst, hok, decide_False]
  unfold maintainGate
  simp only [bindEnts, bookkeep_spriteState]
  by_cases h1 : (g.mem p).spriteState = "ready"
  · have h2 : (g.mem q).spriteState ≠ "ready" := by
      rcases hbusy with h | h
      · exact absurd h1 h
      · exact h
    simp only [h1, if_true, h2, if_false]
  · simp only [h1, if_false]

/-! ## Maintain: the resolution steps -/

theorem faceEachOther_mem (g : Game) (p q r : EntPtr) :
    ∃ fc, (faceEachOther g p q).mem r = { g.mem r with facing := fc } := by
  unfold faceEachOther
  simp only [modify_mem, Entity.TurnToFace]
  split_ifs <;> subst_vars <;> exact ⟨_, rfl⟩

theorem faceEachOther_Stats (g : Game) (p q r : EntPtr) :
    ((faceEachOther g p q).mem r).Stats = (g.mem r).Stats := by
  obtain ⟨fc, h⟩ := faceEachOther_mem g p q r
  rw [h]

theorem faceEachOther_Id (g : Game) (p q r : EntPtr) :
    ((faceEachOther g p q).mem r).Id = (g.mem r).Id := by
  obtain ⟨fc, h⟩ := faceEachOther_mem g p q r
  rw [h]

theorem faceEachOther_Pos (g : Game) (p q r : EntPtr) :
    ((faceEachOther g p q).mem r).Pos = (g.mem r).Pos := by
  obtain ⟨fc, h⟩ := faceEachOther_mem g p q r
  rw [h]
  rfl

theorem faceEachOther_spriteState (g : Game) (p q r : EntPtr) :
    ((faceEachOther g p q).mem r).spriteState = (g.mem r).spriteState := by
  obtain ⟨fc, h⟩ := faceEachOther_mem g p q r
  rw [h]

theorem setStats_mem (g : Game) (p : EntPtr) (s : Stats) (r : EntPtr) :
    (g.setStats p s).mem r = if r = p then { g.mem r with Stats := some s } else g.mem r := by
  unfold Game.setStats
  rw [modify_mem]
  split_ifs with h
  · subst h
    rfl
  · rfl

theorem setStats_Stats (g : Game) (p : EntPtr) (s : Stats) (r : EntPtr) :
    ((g.setStats p s).mem r).Stats = if r = p then some s else (g.mem r).Stats := by
  rw [setStats_mem]
  split_ifs <;> rfl

theorem setStats_Id (g : Game) (p : EntPtr) (s : Stats) (r : EntPtr) :
    ((g.setStats p s).mem r).Id = (g.mem r).Id := by
  rw [setStats_mem]
  split_ifs <;> rfl

theorem setStats_Pos (g : Game) (p : EntPtr) (s : Stats) (r : EntPtr) :
    ((g.setStats p s).mem r).Pos = (g.mem r).Pos := by
  rw [setStats_mem]
  split_ifs <;> rfl

theorem setStats_spriteState (g : Game) (p : EntPtr) (s : Stats) (r : EntPtr) :
    ((g.setStats p s).mem r).spriteState = (g.mem r).spriteState := by
  rw [setStats_mem]
  split_ifs <;> rfl

theorem applyConditions_fields (l : List String) (s : Stats) :
    (applyConditions l s).Ap = s.Ap ∧ (applyConditions l s).Hp = s.Hp ∧
      (applyConditions l s).Conditions = s.Conditions ++ l := by
  unfold applyConditions
  induction l generalizing s with
  | nil => simp
  | cons c cs ih =>
    rw [List.foldl_cons]
    obtain ⟨h1, h2, h3⟩ := ih (s.ApplyCondition (MakeCondition c))
    rw [h1, h2, h3]
    simp [Stats.ApplyCondition, MakeCondition]

theorem spendAmmo_fields (a : BasicAttack) :
    (spendAmmo a).Def = a.Def ∧ (spendAmmo a).temp = a.temp ∧
      (spendAmmo a).Defname = a.Defname ∧
      (spendAmmo a).Current_ammo
        = (if a.Current_ammo > 0 then a.Current_ammo - 1 else a.Current_ammo) := by
  unfold spendAmmo
  split_ifs <;> exact ⟨rfl, rfl, rfl, rfl⟩

/-- The shape of the world after the resolution steps. -/
theorem maintainResolve_spec (doAttack : AttackOracle) (a : BasicAttack) (g : Game)
    (p q : EntPtr) (st tst : Stats)
    (hst : (g.mem p).Stats = some st) (htst : (g.mem q).Stats = some tst) :
    ∃ a1 g1, maintainResolve doAttack a g p q = some (MaintenanceStatus.Complete, a1, g1) ∧
      a1 = spendAmmo a ∧
      g1.Ents = g.Ents ∧
      (∀ r, (g1.mem r).Id = (g.mem r).Id) ∧
      (∀ r, (g1.mem r).Pos = (g.mem r).Pos) ∧
      (∀ r, (g1.mem r).spriteState = (g.mem r).spriteState) ∧
      (∀ r, r ≠ p → r ≠ q → (g1.mem r).Stats = (g.mem r).Stats) ∧
      (∃ st1, (g1.mem p).Stats = some st1 ∧ st1.ApCur = st.ApCur - a.Def.Ap) ∧
      (∃ tst1, (g1.mem q).Stats = some tst1) ∧
      g1.syncCmds.length = g.syncCmds.length + 1 := by
  have hd : (spendAmmo a).Def = a.Def := (spendAmmo_fields a).1
  unfold maintainResolve
  simp only [faceEachOther_Stats, hst]
  split_ifs with hit
  · -- hit
    simp only [setStats_Stats, faceEachOther_Stats]
    by_cases hqp : q = p
    · subst hqp
      simp only [if_true]
      refine ⟨_, _, rfl, rfl, rfl, ?_, ?_, ?_, ?_, ?_, ?_, ?_⟩
      · intro r; simp only [commandSync, setStats_Id, faceEachOther_Id]
      · intro r; simp only [commandSync, setStats_Pos, faceEachOther_Pos]
      · intro r; simp only [commandSync, setStats_spriteState, faceEachOther_spriteState]
      · intro r h1 _
        simp only [commandSync, setStats_Stats, faceEachOther_Stats, h1, if_false]
      · refine ⟨_, by simp only [commandSync, setStats_Stats, if_true]; rfl, ?_⟩
        simp only [Stats.ApCur, Stats.ApplyDamage, (applyConditions_fields _ _).1, hd]
        omega
      · exact ⟨_, by simp only [commandSync, setStats_Stats, if_true]; rfl⟩
      · simp [commandSync, Game.setStats, Game.modify, faceEachOther]
    · simp only [hqp, if_false, htst]
      have hpq : p ≠ q := fun h => hqp h.symm
      refine ⟨_, _, rfl, rfl, rfl, ?_, ?_, ?_, ?_, ?_, ?_, ?_⟩
      · intro r; simp only [commandSync, setStats_Id, faceEachOther_Id]
      · intro r; simp only [commandSync, setStats_Pos, faceEachOther_Pos]
      · intro r; simp only [commandSync, setStats_spriteState, faceEachOther_spriteState]
      · intro r h1 h2
        simp only [commandSync, setStats_Stats, faceEachOther_Stats, h1, h2, if_false]
      · refine ⟨_, by simp only [commandSync, setStats_Stats, hpq, if_true, if_false]; rfl, ?_⟩
        simp only [Stats.ApCur, Stats.ApplyDamage, hd]
        omega
      · exact ⟨_, by simp only [commandSync, setStats_Stats, if_true]; rfl⟩
      · simp [commandSync, Game.setStats, Game.modify, faceEachOther]
  · refine ⟨_, _, rfl, rfl, rfl, ?_, ?_, ?_, ?_, ?_, ?_, ?_⟩
    · intro r; simp only [commandSync, setStats_Id, faceEachOther_Id]
    · intro r; simp only [commandSync, setStats_Pos, faceEachOther_Pos]
    · intro r; simp only [commandSync, setStats_spriteState, faceEachOther_spriteState]
    · intro r h1 _
      simp only [commandSync, setStats_Stats, faceEachOther_Stats, h1, if_false]
    · refine ⟨_, by simp only [commandSync, setStats_Stats, if_true]; rfl, ?_⟩
      simp only [Stats.ApCur, Stats.ApplyDamage, hd]
      omega
    · by_cases hqp : q = p
      · exact ⟨_, by simp only [commandSync, setStats_Stats, hqp, if_true]; rfl⟩
      · exact ⟨tst, by simp only [commandSync, setStats_Stats, hqp, if_false,
          faceEachOther_Stats, htst]⟩
    · simp [commandSync, Game.setStats, Game.modify, faceEachOther]

theorem maintainGate_waiting (doAttack : AttackOracle) (a : BasicAttack) (g : Game)
    (p q : EntPtr) (hent : a.temp.ent = some p) (htgt : a.temp.target = some q)
    (hbusy : (g.mem p).spriteState ≠ "ready" ∨ (g.mem q).spriteState ≠ "ready") :
    maintainGate doAttack a g = some (MaintenanceStatus.InProgress, a, g) := by
  unfold maintainGate
  simp only [hent, htgt]
  by_cases h1 : (g.mem p).spriteState = "ready"
  · have h2 : (g.mem q).spriteState ≠ "ready" := by
      rcases hbusy with h | h
      · exact absurd h1 h
      · exact h
    simp only [h1, if_true, h2, if_false]
  · simp only [h1, if_false]

theorem bindEnts_idem (a : BasicAttack) (p q : EntPtr) :
    bindEnts (bindEnts a p q) p q = bindEnts a p q := rfl

theorem Maintain_ready (doAttack : AttackOracle) (a : BasicAttack) (dt : Int) (g : Game)
    (exec : basicAttackExec) (p q : EntPtr) (st tst : Stats)
    (hp : g.EntityById exec.EntityId = some p) (hq : g.EntityById exec.Target = some q)
    (hst : (g.mem p).Stats = some st) (htst : (g.mem q).Stats = some tst)
    (hok : ¬ (a.Def.Ap > st.ApCur ∨ tst.HpCur ≤ 0 ∨
      distBetweenEnts (g.mem p) (g.mem q) > a.Def.Range))
    (hrp : (g.mem p).spriteState = "ready") (hrq : (g.mem q).spriteState = "ready") :
    Maintain doAttack a dt g (some exec)
      = maintainResolve doAttack (bindEnts a p q) (bookkeep g p q) p q := by
  unfold Maintain
  simp only [maintainBind_eq a g exec p q st tst hp hq hst htst, hok, decide_False]
  unfold maintainGate
  simp only [bindEnts, bookkeep_spriteState, hrp, hrq, if_true]

theorem Maintain_resolved_inv (doAttack : AttackOracle) (a : BasicAttack) (dt : Int)
    (g : Game) (exec : basicAttackExec) (s : MaintenanceStatus) (a1 : BasicAttack) (g1 : Game)
    (h : Maintain doAttack a dt g (some exec) = some (s, a1, g1))
    (hres : g1.syncCmds ≠ g.syncCmds) :
    ∃ p q st tst, g.EntityById exec.EntityId = some p ∧ g.EntityById exec.Target = some q ∧
      (g.mem p).Stats = some st ∧ (g.mem q).Stats = some tst ∧
      maintainResolve doAttack (bindEnts a p q) (bookkeep g p q) p q = some (s, a1, g1) := by
  have hsame : ∀ (x : MaintenanceStatus) (b : BasicAttack) (p q : EntPtr),
      some (x, b, bookkeep g p q) = some (s, a1, g1) → False := by
    intro x b p q hx
    simp only [Option.some.injEq, Prod.mk.injEq] at hx
    apply hres
    rw [← hx.2.2]
    rfl
  cases hp : g.EntityById exec.EntityId with
  | none =>
    unfold Maintain maintainBind at h
    simp [hp] at h
  | some p =>
    cases hq : g.EntityById exec.Target with
    | none =>
      unfold Maintain maintainBind at h
      simp [hp, hq] at h
    | some q =>
      cases hst : (g.mem p).Stats with
      | none =>
        unfold Maintain maintainBind at h
        simp [hp, hq, bookkeep_Stats, hst] at h
      | some st =>
        cases htst : (g.mem q).Stats with
        | none =>
          unfold Maintain maintainBind at h
          simp only [hp, hq, bookkeep_Stats, hst, htst] at h
          split_ifs at h with h1
          exact (hsame _ _ _ _ h).elim
        | some tst =>
          by_cases hbad : a.Def.Ap > st.ApCur ∨ tst.HpCur ≤ 0 ∨
              distBetweenEnts (g.mem p) (g.mem q) > a.Def.Range
          · rw [Maintain_invalid doAttack a dt g exec p q st tst hp hq hst htst hbad] at h
            exact (hsame _ _ _ _ h).elim
          · by_cases hbusy : (g.mem p).spriteState ≠ "ready" ∨ (g.mem q).spriteState ≠ "ready"
            · rw [Maintain_waiting doAttack a dt g exec p q st tst hp hq hst htst hbad hbusy]
                at h
              exact (hsame _ _ _ _ h).elim
            · rw [not_or, not_not, not_not] at hbusy
              rw [Maintain_ready doAttack a dt g exec p q st tst hp hq hst htst hbad
                hbusy.1 hbusy.2] at h
              exact ⟨p, q, st, tst, rfl, rfl, hst, htst, h⟩

/-! ## Maintain: the claims -/

/-- C8: for a record whose two ids resolve to entities with stats and for which the cost
exceeds the current action points of the actor, or the health of the target is 0 or less, or
the distance between actor and target exceeds the range, `Maintain` returns `Complete`, and
the ammunition, the stats of every entity (so the action points of the actor, the health and
the conditions of the target) and the list of issued animation commands are as before,
whatever the states of the sprites. -/
theorem Maintain_invalid_record (doAttack : AttackOracle) (a : BasicAttack) (dt : Int)
    (g : Game) (exec : basicAttackExec) (p q : EntPtr) (st tst : Stats)
    (hp : g.EntityById exec.EntityId = some p) (hq : g.EntityById exec.Target = some q)
    (hst : (g.mem p).Stats = some st) (htst : (g.mem q).Stats = some tst)
    (hbad : a.Def.Ap > st.ApCur ∨ tst.HpCur ≤ 0 ∨
      distBetweenEnts (g.mem p) (g.mem q) > a.Def.Range) :
    ∃ a1 g1, Maintain doAttack a dt g (some exec) = some (MaintenanceStatus.Complete, a1, g1) ∧
      a1.Current_ammo = a.Current_ammo ∧ a1.Def = a.Def ∧
      (∀ r, (g1.mem r).Stats = (g.mem r).Stats) ∧
      (g1.mem p).Stats = some st ∧ (g1.mem q).Stats = some tst ∧
      g1.syncCmds = g.syncCmds := by
  refine ⟨bindEnts a p q, bookkeep g p q,
    Maintain_invalid doAttack a dt g exec p q st tst hp hq hst htst hbad, rfl, rfl,
    bookkeep_Stats g p q, ?_, ?_, rfl⟩
  · rw [bookkeep_Stats, hst]
  · rw [bookkeep_Stats, htst]

/-- A record aimed at the dead enemy of the sample world completes at once and changes
nothing. -/
theorem Maintain_invalid_record_witness :
    (sampleGame none).EntityById deadRecord.EntityId = some 0 ∧
      (sampleGame none).EntityById deadRecord.Target = some 2 ∧
      ∃ a1 g1, Maintain alwaysHit (sampleAttack none 1) 0 (sampleGame none) (some deadRecord)
          = some (MaintenanceStatus.Complete, a1, g1) ∧
        a1.Current_ammo = 1 ∧ (g1.mem 0).Stats = some ⟨4, 8, []⟩ ∧
        (g1.mem 2).Stats = some ⟨3, 0, []⟩ ∧ g1.syncCmds = [] := by
  refine ⟨by decide, by decide, ?_⟩
  obtain ⟨a1, g1, h, hammo, -, -, hs1, hs2, hc⟩ :=
    Maintain_invalid_record alwaysHit (sampleAttack none 1) 0 (sampleGame none) deadRecord
      0 2 ⟨4, 8, []⟩ ⟨3, 0, []⟩ (by decide) (by decide) rfl rfl (Or.inr (Or.inl (by decide)))
  exact ⟨a1, g1, h, hammo, hs1, hs2, hc⟩

/-- C9: for a valid record (action points at least the cost, target health above 0, target
in range) while the sprite of the actor or of the target is not in the state ready, `Maintain`
returns `InProgress` with ammunition, stats of every entity and issued animation commands
unchanged; the sprites being as they were, a second call with the same record, or with no
record, returns `InProgress` again with the same unchanged values. -/
theorem Maintain_not_ready (doAttack : AttackOracle) (a : BasicAttack) (dt : Int)
    (g : Game) (exec : basicAttackExec) (p q : EntPtr) (st tst : Stats)
    (hp : g.EntityById exec.EntityId = some p) (hq : g.EntityById exec.Target = some q)
    (hst : (g.mem p).Stats = some st) (htst : (g.mem q).Stats = some tst)
    (hap : st.ApCur ≥ a.Def.Ap) (hhp : 0 < tst.HpCur)
    (hrange : distBetweenEnts (g.mem p) (g.mem q) ≤ a.Def.Range)
    (hbusy : (g.mem p).spriteState ≠ "ready" ∨ (g.mem q).spriteState ≠ "ready") :
    ∃ a1 g1, Maintain doAttack a dt g (some exec)
        = some (MaintenanceStatus.InProgress, a1, g1) ∧
      a1.Current_ammo = a.Current_ammo ∧ (∀ r, (g1.mem r).Stats = (g.mem r).Stats) ∧
      g1.syncCmds = g.syncCmds ∧
      ((g1.mem p).spriteState ≠ "ready" ∨ (g1.mem q).spriteState ≠ "ready") ∧
      ∃ a2 g2, Maintain doAttack a1 dt g1 (some exec)
          = some (MaintenanceStatus.InProgress, a2, g2) ∧
        a2.Current_ammo = a.Current_ammo ∧ (∀ r, (g2.mem r).Stats = (g.mem r).Stats) ∧
        g2.syncCmds = g.syncCmds ∧
        Maintain doAttack a1 dt g1 none = some (MaintenanceStatus.InProgress, a1, g1) := by
  have hok : ¬ (a.Def.Ap > st.ApCur ∨ tst.HpCur ≤ 0 ∨
      distBetweenEnts (g.mem p) (g.mem q) > a.Def.Range) := by
    rintro (h | h | h) <;> omega
  have hbusy1 : ((bookkeep g p q).mem p).spriteState ≠ "ready" ∨
      ((bookkeep g p q).mem q).spriteState ≠ "ready" := by
    rw [bookkeep_spriteState, bookkeep_spriteState]
    exact hbusy
  refine ⟨bindEnts a p q, bookkeep g p q,
    Maintain_waiting doAttack a dt g exec p q st tst hp hq hst htst hok hbusy, rfl,
    bookkeep_Stats g p q, rfl, hbusy1, ?_⟩
  have hp1 : (bookkeep g p q).EntityById exec.EntityId = some p := by
    rw [bookkeep_EntityById, hp]
  have hq1 : (bookkeep g p q).EntityById exec.Target = some q := by
    rw [bookkeep_EntityById, hq]
  have hst1 : ((bookkeep g p q).mem p).Stats = some st := by rw [bookkeep_Stats, hst]
  have htst1 : ((bookkeep g p q).mem q).Stats = some tst := by rw [bookkeep_Stats, htst]
  have hok1 : ¬ ((bindEnts a p q).Def.Ap > st.ApCur ∨ tst.HpCur ≤ 0 ∨
      distBetweenEnts ((bookkeep g p q).mem p) ((bookkeep g p q).mem q)
        > (bindEnts a p q).Def.Range) := by
    rw [bookkeep_dist]
    exact hok
  refine ⟨bindEnts a p q, bookkeep (bookkeep g p q) p q,
    Maintain_waiting doAttack (bindEnts a p q) dt (bookkeep g p q) exec p q st tst hp1 hq1
      hst1 htst1 hok1 hbusy1, rfl, ?_, rfl, ?_⟩
  · intro r
    rw [bookkeep_Stats, bookkeep_Stats]
  · exact maintainGate_waiting doAttack (bindEnts a p q) (bookkeep g p q) p q rfl rfl hbusy1

/-- While the sprite of the enemy still plays another animation the attack stays in
progress and nothing is spent. -/
theorem Maintain_not_ready_witness :
    (((sampleGame none).withSprite 1 "hurt").mem 1).spriteState ≠ "ready" ∧
      ∃ a1 g1, Maintain alwaysHit (sampleAttack none 1) 0 ((sampleGame none).withSprite 1 "hurt")
          (some nearRecord) = some (MaintenanceStatus.InProgress, a1, g1) ∧
        a1.Current_ammo = 1 ∧ (g1.mem 0).Stats = some ⟨4, 8, []⟩ ∧
        (g1.mem 1).Stats = some ⟨3, 10, []⟩ ∧ g1.syncCmds = [] := by
  refine ⟨by decide, ?_⟩
  obtain ⟨a1, g1, h, hammo, hs, hc, -⟩ :=
    Maintain_not_ready alwaysHit (sampleAttack none 1) 0 ((sampleGame none).withSprite 1 "hurt")
      nearRecord 0 1 ⟨4, 8, []⟩ ⟨3, 10, []⟩ (by decide) (by decide) rfl rfl (by decide)
      (by decide) (by decide) (Or.inr (by decide))
  exact ⟨a1, g1, h, hammo, by rw [hs]; rfl, by rw [hs]; rfl, hc⟩

/-- C10, the claim as stated fails: in the sample world with two rounds, a second `Maintain`
call with the same record after the resolving one resolves the attack once more when both
sprites are ready (action points 2 to 0, ammunition 1 to 0, health 6 to 2, a second animation
command), and returns `InProgress` instead of `Complete` when the sprite of the actor is
busy. -/
theorem Maintain_same_record_resolved_twice :
    observe 0 1 (Maintain alwaysHit (sampleAttack none 2) 0 (sampleGame none) (some nearRecord))
        = some (MaintenanceStatus.Complete, 1, some ⟨2, 8, []⟩, some ⟨3, 6, ["bleeding"]⟩, 1) ∧
      observe 0 1
          ((Maintain alwaysHit (sampleAttack none 2) 0 (sampleGame none) (some nearRecord)).bind
            (fun r => Maintain alwaysHit r.2.1 0 r.2.2 (some nearRecord)))
        = some (MaintenanceStatus.Complete, 0, some ⟨0, 8, []⟩,
            some ⟨3, 2, ["bleeding", "bleeding"]⟩, 2) ∧
      observe 0 1
          ((Maintain alwaysHit (sampleAttack none 2) 0 (sampleGame none) (some nearRecord)).bind
            (fun r => Maintain alwaysHit r.2.1 0 (r.2.2.withSprite 0 "melee") (some nearRecord)))
        = some (MaintenanceStatus.InProgress, 1, some ⟨2, 8, []⟩, some ⟨3, 6, ["bleeding"]⟩, 1) := by
  refine ⟨by decide, by decide, by decide⟩

/-- C10, amended: after a `Maintain` call that passed the ready gate, resolved the attack and
returned `Complete`, the ids of the record still resolve to the same two entities with stats,
and a further `Maintain` call with the same record returns `Complete` without deducting action
points, decrementing ammunition or applying damage again whenever the record no longer
validates in the resulting state (remaining action points below the cost, target health 0 or
less, or target out of range).  `Maintain` keeps no memory of the records it has resolved: if
the record still validates, the further call returns `InProgress` without any change while a
sprite is not ready, and resolves the attack once more when both sprites are ready. -/
theorem Maintain_after_resolution (doAttack : AttackOracle) (a : BasicAttack) (dt : Int)
    (g : Game) (exec : basicAttackExec) (a1 : BasicAttack) (g1 : Game)
    (h1 : Maintain doAttack a dt g (some exec) = some (MaintenanceStatus.Complete, a1, g1))
    (hres : g1.syncCmds ≠ g.syncCmds) :
    ∃ p q st1 tst1,
      g1.EntityById exec.EntityId = some p ∧ g1.EntityById exec.Target = some q ∧
      (g1.mem p).Stats = some st1 ∧ (g1.mem q).Stats = some tst1 ∧
      ((a1.Def.Ap > st1.ApCur ∨ tst1.HpCur ≤ 0 ∨
          distBetweenEnts (g1.mem p) (g1.mem q) > a1.Def.Range) →
        ∃ a2 g2, Maintain doAttack a1 dt g1 (some exec)
            = some (MaintenanceStatus.Complete, a2, g2) ∧
          a2.Current_ammo = a1.Current_ammo ∧
          (∀ r, (g2.mem r).Stats = (g1.mem r).Stats) ∧ g2.syncCmds = g1.syncCmds) ∧
      (¬ (a1.Def.Ap > st1.ApCur ∨ tst1.HpCur ≤ 0 ∨
          distBetweenEnts (g1.mem p) (g1.mem q) > a1.Def.Range) →
        ((g1.mem p).spriteState ≠ "ready" ∨ (g1.mem q).spriteState ≠ "ready") →
        ∃ a2 g2, Maintain doAttack a1 dt g1 (some exec)
            = some (MaintenanceStatus.InProgress, a2, g2) ∧
          a2.Current_ammo = a1.Current_ammo ∧
          (∀ r, (g2.mem r).Stats = (g1.mem r).Stats) ∧ g2.syncCmds = g1.syncCmds) ∧
      (¬ (a1.Def.Ap > st1.ApCur ∨ tst1.HpCur ≤ 0 ∨
          distBetweenEnts (g1.mem p) (g1.mem q) > a1.Def.Range) →
        (g1.mem p).spriteState = "ready" → (g1.mem q).spriteState = "ready" →
        ∃ a2 g2, Maintain doAttack a1 dt g1 (some exec)
            = some (MaintenanceStatus.Complete, a2, g2) ∧
          a2.Current_ammo
            = (if a1.Current_ammo > 0 then a1.Current_ammo - 1 else a1.Current_ammo) ∧
          (∃ st2, (g2.mem p).Stats = some st2 ∧ st2.ApCur = st1.ApCur - a1.Def.Ap) ∧
          g2.syncCmds.length = g1.syncCmds.length + 1) := by
  obtain ⟨p, q, st, tst, hp, hq, hst, htst, hr⟩ :=
    Maintain_resolved_inv doAttack a dt g exec _ a1 g1 h1 hres
  have hst0 : ((bookkeep g p q).mem p).Stats = some st := by rw [bookkeep_Stats, hst]
  have htst0 : ((bookkeep g p q).mem q).Stats = some tst := by rw [bookkeep_Stats, htst]
  obtain ⟨a1', g1', hr', ha1, hEnts, hId, -, -, -, ⟨st1, hst1, -⟩, ⟨tst1, htst1⟩, -⟩ :=
    maintainResolve_spec doAttack (bindEnts a p q) (bookkeep g p q) p q st tst hst0 htst0
  rw [hr] at hr'
  simp only [Option.some.injEq, Prod.mk.injEq, true_and] at hr'
  obtain ⟨rfl, rfl⟩ := hr'
  have hById : ∀ id, g1.EntityById id = g.EntityById id := by
    intro id
    rw [← bookkeep_EntityById g p q id]
    unfold Game.EntityById
    rw [hEnts]
    exact lookupId_congr _ _ hId id _
  have hp1 : g1.EntityById exec.EntityId = some p := by rw [hById, hp]
  have hq1 : g1.EntityById exec.Target = some q := by rw [hById, hq]
  refine ⟨p, q, st1, tst1, hp1, hq1, hst1, htst1, ?_, ?_, ?_⟩
  · intro hbad
    exact ⟨_, _, Maintain_invalid doAttack a1 dt g1 exec p q st1 tst1 hp1 hq1 hst1 htst1 hbad,
      rfl, bookkeep_Stats g1 p q, rfl⟩
  · intro hok hbusy
    exact ⟨_, _, Maintain_waiting doAttack a1 dt g1 exec p q st1 tst1 hp1 hq1 hst1 htst1 hok
      hbusy, rfl, bookkeep_Stats g1 p q, rfl⟩
  · intro hok hrp hrq
    have hst2 : ((bookkeep g1 p q).mem p).Stats = some st1 := by rw [bookkeep_Stats, hst1]
    have htst2 : ((bookkeep g1 p q).mem q).Stats = some tst1 := by rw [bookkeep_Stats, htst1]
    obtain ⟨a2, g2, hr2, ha2, -, -, -, -, -, hap, -, hlen⟩ :=
      maintainResolve_spec doAttack (bindEnts a1 p q) (bookkeep g1 p q) p q st1 tst1 hst2 htst2
    refine ⟨a2, g2, ?_, ?_, hap, hlen⟩
    · rw [Maintain_ready doAttack a1 dt g1 exec p q st1 tst1 hp1 hq1 hst1 htst1 hok hrp hrq]
      exact hr2
    · rw [ha2]
      exact (spendAmmo_fields _).2.2.2

/-- After the 3 point attack was resolved the actor is left with 1 action point, so a further
call with the same record completes and changes nothing. -/
theorem Maintain_after_resolution_witness :
    Maintain alwaysHit heavyAttack 0 (sampleGame none) (some nearRecord)
        = some (MaintenanceStatus.Complete, spendAmmo (bindEnts heavyAttack 0 1), afterHeavy) ∧
      afterHeavy.syncCmds ≠ (sampleGame none).syncCmds ∧
      ∃ a2 g2, Maintain alwaysHit (spendAmmo (bindEnts heavyAttack 0 1)) 0 afterHeavy
          (some nearRecord) = some (MaintenanceStatus.Complete, a2, g2) ∧
        a2.Current_ammo = 0 ∧ (g2.mem 0).Stats = some ⟨1, 8, []⟩ ∧
        (g2.mem 1).Stats = some ⟨3, 6, ["bleeding"]⟩ ∧ g2.syncCmds.length = 1 := by
  refine ⟨rfl, by decide, ?_⟩
  obtain ⟨p, q, st1, tst1, hp, hq, hst1, htst1, hi, -, -⟩ :=
    Maintain_after_resolution alwaysHit heavyAttack 0 (sampleGame none) nearRecord
      (spendAmmo (bindEnts heavyAttack 0 1)) afterHeavy rfl (by decide)
  have hp0 : afterHeavy.EntityById nearRecord.EntityId = some 0 := by decide
  have hq0 : afterHeavy.EntityById nearRecord.Target = some 1 := by decide
  rw [hp0] at hp
  rw [hq0] at hq
  cases hp
  cases hq
  have hs : (afterHeavy.mem 0).Stats = some ⟨1, 8, []⟩ := by decide
  rw [hs] at hst1
  cases hst1
  obtain ⟨a2, g2, h2, hammo, hstats, hcmds⟩ := hi (Or.inl (by decide))
  refine ⟨a2, g2, h2, ?_, ?_, ?_, ?_⟩
  · rw [hammo]; decide
  · rw [hstats]; decide
  · rw [hstats]; decide
  · rw [hcmds]; decide

/-! ## Ammunition -/

theorem commandSync_length (g : Game) (sp : List EntPtr) (c : List (List String))
    (b : String) : (commandSync g sp c b).syncCmds.length = g.syncCmds.length + 1 := by
  simp [commandSync]

theorem setStats_syncCmds (g : Game) (p : EntPtr) (s : Stats) :
    (g.setStats p s).syncCmds = g.syncCmds := rfl

theorem faceEachOther_syncCmds (g : Game) (p q : EntPtr) :
    (faceEachOther g p q).syncCmds = g.syncCmds := rfl

theorem bookkeep_syncCmds (g : Game) (p q : EntPtr) :
    (bookkeep g p q).syncCmds = g.syncCmds := rfl

/-- Whatever the stats are, a result of the resolution steps is `Complete`, carries the
instance after `spendAmmo`, and has one more animation command. -/
theorem maintainResolve_inv (doAttack : AttackOracle) (a : BasicAttack) (g : Game)
    (p q : EntPtr) (s : MaintenanceStatus) (a1 : BasicAttack) (g1 : Game)
    (h : maintainResolve doAttack a g p q = some (s, a1, g1)) :
    s = MaintenanceStatus.Complete ∧ a1 = spendAmmo a ∧
      g1.syncCmds.length = g.syncCmds.length + 1 := by
  unfold maintainResolve at h
  cases hst : ((faceEachOther g p q).mem p).Stats with
  | none => simp [hst] at h
  | some st =>
    simp only [hst] at h
    split_ifs at h with hit
    · cases htst : (((faceEachOther g p q).setStats p
          (st.ApplyDamage (-(spendAmmo a).Def.Ap) 0 Unspecified)).mem q).Stats with
      | none => simp [htst] at h
      | some tst =>
        simp only [htst, Option.some.injEq, Prod.mk.injEq] at h
        obtain ⟨h1, h2, h3⟩ := h
        subst h1 h2 h3
        refine ⟨rfl, rfl, ?_⟩
        rw [commandSync_length, setStats_syncCmds, setStats_syncCmds, faceEachOther_syncCmds]
    · simp only [Option.some.injEq, Prod.mk.injEq] at h
      obtain ⟨h1, h2, h3⟩ := h
      subst h1 h2 h3
      refine ⟨rfl, rfl, ?_⟩
      rw [commandSync_length, setStats_syncCmds, faceEachOther_syncCmds]

/-- A result of the ready gate either is `InProgress` with instance and world as they were, or
comes from the resolution steps. -/
theorem maintainGate_inv (doAttack : AttackOracle) (a : BasicAttack) (g : Game)
    (s : MaintenanceStatus) (a1 : BasicAttack) (g1 : Game)
    (h : maintainGate doAttack a g = some (s, a1, g1)) :
    (s = MaintenanceStatus.InProgress ∧ a1 = a ∧ g1 = g) ∨
      (s = MaintenanceStatus.Complete ∧ a1 = spendAmmo a ∧
        g1.syncCmds.length = g.syncCmds.length + 1) := by
  unfold maintainGate at h
  cases hent : a.temp.ent with
  | none => simp [hent] at h
  | some p =>
    simp only [hent] at h
    split_ifs at h with h1
    · cases htgt : a.temp.target with
      | none => simp [htgt] at h
      | some q =>
        simp only [htgt] at h
        split_ifs at h with h2
        · exact Or.inr (maintainResolve_inv doAttack a g p q s a1 g1 h)
        · simp only [Option.some.injEq, Prod.mk.injEq] at h
          exact Or.inl ⟨h.1.symm, h.2.1.symm, h.2.2.symm⟩
    · simp only [Option.some.injEq, Prod.mk.injEq] at h
      exact Or.inl ⟨h.1.symm, h.2.1.symm, h.2.2.symm⟩

/-- A result of the first block of `Maintain` carries the ammunition of the instance and the
animation commands of the world it started from. -/
theorem maintainBind_inv (a : BasicAttack) (g : Game) (exec : basicAttackExec) (b : Bool)
    (a1 : BasicAttack) (g1 : Game) (h : maintainBind a g exec = some (b, a1, g1)) :
    ∃ p q, a1 = bindEnts a p q ∧ g1 = bookkeep g p q := by
  unfold maintainBind at h
  cases hp : g.EntityById exec.EntityId with
  | none => simp [hp] at h
  | some p =>
    cases hq : g.EntityById exec.Target with
    | none => simp [hp, hq] at h
    | some q =>
      simp only [hp, hq] at h
      cases hst : ((bookkeep g p q).mem p).Stats with
      | none => simp [hst] at h
      | some st =>
        cases htst : ((bookkeep g p q).mem q).Stats with
        | none =>
          simp only [hst, htst] at h
          split_ifs at h
          simp only [Option.some.injEq, Prod.mk.injEq] at h
          exact ⟨p, q, h.2.1.symm, h.2.2.symm⟩
        | some tst =>
          simp only [hst, htst] at h
          split_ifs at h <;>
            · simp only [Option.some.injEq, Prod.mk.injEq] at h
              exact ⟨p, q, h.2.1.symm, h.2.2.symm⟩

/-- Every result of `Maintain` either leaves ammunition and animation commands as they were,
or is a resolution: `Complete`, the ammunition after `spendAmmo`, one more command. -/
theorem Maintain_inv (doAttack : AttackOracle) (a : BasicAttack) (dt : Int) (g : Game)
    (ae : Option basicAttackExec) (s : MaintenanceStatus) (a1 : BasicAttack) (g1 : Game)
    (h : Maintain doAttack a dt g ae = some (s, a1, g1)) :
    (a1.Current_ammo = a.Current_ammo ∧ g1.syncCmds = g.syncCmds) ∨
      (s = MaintenanceStatus.Complete ∧ a1.Current_ammo = (spendAmmo a).Current_ammo ∧
        g1.syncCmds.length = g.syncCmds.length + 1) := by
  unfold Maintain at h
  cases ae with
  | none =>
    simp only at h
    rcases maintainGate_inv doAttack a g s a1 g1 h with ⟨-, h2, h3⟩ | ⟨h1, h2, h3⟩
    · exact Or.inl ⟨by rw [h2], by rw [h3]⟩
    · exact Or.inr ⟨h1, by rw [h2], h3⟩
  | some exec =>
    simp only at h
    cases hb : maintainBind a g exec with
    | none => simp [hb] at h
    | some r =>
      obtain ⟨b, a2, g2⟩ := r
      obtain ⟨p, q, ha2, hg2⟩ := maintainBind_inv a g exec b a2 g2 hb
      cases b with
      | true =>
        simp only [hb, Option.some.injEq, Prod.mk.injEq] at h
        obtain ⟨-, h2, h3⟩ := h
        subst h2 h3 ha2 hg2
        exact Or.inl ⟨rfl, rfl⟩
      | false =>
        simp only [hb] at h
        subst ha2 hg2
        rcases maintainGate_inv doAttack _ _ s a1 g1 h with ⟨-, h2, h3⟩ | ⟨h1, h2, h3⟩
        · subst h2 h3
          exact Or.inl ⟨rfl, rfl⟩
        · refine Or.inr ⟨h1, ?_, ?_⟩
          · rw [h2]
            simp only [(spendAmmo_fields _).2.2.2]
            rfl
          · rw [h3, bookkeep_syncCmds]

theorem Prep_ammo (a : BasicAttack) (ent : EntPtr) (g : Game) (b : Bool) (a2 : BasicAttack)
    (g2 : Game) (h : Prep a ent g = some (b, a2, g2)) :
    a2.Current_ammo = a.Current_ammo ∧ a2.Def = a.Def := by
  unfold Prep at h
  cases hp : Preppable a ent g with
  | none => simp [hp] at h
  | some r =>
    cases r with
    | false =>
      simp only [hp, Option.some.injEq, Prod.mk.injEq] at h
      obtain ⟨-, h2, -⟩ := h
      subst h2
      exact ⟨rfl, rfl⟩
    | true =>
      simp only [hp, Option.some.injEq, Prod.mk.injEq] at h
      obtain ⟨-, h2, -⟩ := h
      subst h2
      exact ⟨rfl, rfl⟩

/-- C11: ammunition under `Maintain`.  For every `Maintain` call that returns: an unlimited
counter (-1) is still -1 afterwards; a finite counter (above 0) is lowered by exactly 1 by a
call that resolves the attack (recognised by the animation command it issues, and then the
status is `Complete`), and is left as it was by every other call; hence a counter that is at
least -1 stays at least -1 and a counter that is at least 0 stays at least 0.  `Prep` and
`Cancel` do not touch the counter, and the maker starts it at -1 or above.  A call that hands
in a valid record while both sprites are ready is such a resolving call: it is `Complete`,
issues one animation command and spends one round of a finite counter. -/
theorem Maintain_ammo_invariant (doAttack : AttackOracle) (a : BasicAttack) (dt : Int)
    (g : Game) (ae : Option basicAttackExec) (s : MaintenanceStatus) (a1 : BasicAttack)
    (g1 : Game) (h : Maintain doAttack a dt g ae = some (s, a1, g1)) :
    (a.Current_ammo = -1 → a1.Current_ammo = -1) ∧
    (0 < a.Current_ammo → g1.syncCmds ≠ g.syncCmds →
      s = MaintenanceStatus.Complete ∧ a1.Current_ammo = a.Current_ammo - 1) ∧
    (g1.syncCmds = g.syncCmds → a1.Current_ammo = a.Current_ammo) ∧
    (-1 ≤ a.Current_ammo → -1 ≤ a1.Current_ammo) ∧
    (0 ≤ a.Current_ammo → 0 ≤ a1.Current_ammo) ∧
    (∀ ent b a2 g2, Prep a ent g = some (b, a2, g2) → a2.Current_ammo = a.Current_ammo) ∧
    (Cancel a).Current_ammo = a.Current_ammo ∧
    (∀ cname d, -1 ≤ (makeBasicAttack cname d).Current_ammo) ∧
    (∀ exec p q st tst, ae = some exec →
      g.EntityById exec.EntityId = some p → g.EntityById exec.Target = some q →
      (g.mem p).Stats = some st → (g.mem q).Stats = some tst →
      st.ApCur ≥ a.Def.Ap → 0 < tst.HpCur →
      distBetweenEnts (g.mem p) (g.mem q) ≤ a.Def.Range →
      (g.mem p).spriteState = "ready" → (g.mem q).spriteState = "ready" →
      s = MaintenanceStatus.Complete ∧ g1.syncCmds.length = g.syncCmds.length + 1 ∧
        a1.Current_ammo
          = (if a.Current_ammo > 0 then a.Current_ammo - 1 else a.Current_ammo)) := by
  have hs : (spendAmmo a).Current_ammo
      = (if a.Current_ammo > 0 then a.Current_ammo - 1 else a.Current_ammo) :=
    (spendAmmo_fields a).2.2.2
  have hinv := Maintain_inv doAttack a dt g ae s a1 g1 h
  refine ⟨?_, ?_, ?_, ?_, ?_, ?_, rfl, ?_, ?_⟩
  · intro h0
    rcases hinv with ⟨h1, -⟩ | ⟨-, h1, -⟩
    · rw [h1, h0]
    · rw [h1, hs, h0]
      decide
  · intro hpos hres
    rcases hinv with ⟨-, h2⟩ | ⟨h1, h2, -⟩
    · exact absurd h2 hres
    · refine ⟨h1, ?_⟩
      rw [h2, hs, if_pos hpos]
  · intro hsame
    rcases hinv with ⟨h1, -⟩ | ⟨-, -, h3⟩
    · exact h1
    · rw [hsame] at h3
      omega
  · intro hge
    rcases hinv with ⟨h1, -⟩ | ⟨-, h1, -⟩
    · rw [h1]
      exact hge
    · rw [h1, hs]
      split_ifs <;> omega
  · intro hge
    rcases hinv with ⟨h1, -⟩ | ⟨-, h1, -⟩
    · rw [h1]
      exact hge
    · rw [h1, hs]
      split_ifs <;> omega
  · intro ent b a2 g2 hprep
    exact (Prep_ammo a ent g b a2 g2 hprep).1
  · intro cname d
    unfold makeBasicAttack
    simp only []
    split_ifs with hd
    · show -1 ≤ d.Ammo
      omega
    · show (-1 : Int) ≤ -1
      omega
  · intro exec p q st tst hae hp hq hst htst hap hhp hrange hrp hrq
    subst hae
    have hok : ¬ (a.Def.Ap > st.ApCur ∨ tst.HpCur ≤ 0 ∨
        distBetweenEnts (g.mem p) (g.mem q) > a.Def.Range) := by
      rintro (h' | h' | h') <;> omega
    rw [Maintain_ready doAttack a dt g exec p q st tst hp hq hst htst hok hrp hrq] at h
    obtain ⟨h1, h2, h3⟩ :=
      maintainResolve_inv doAttack (bindEnts a p q) (bookkeep g p q) p q s a1 g1 h
    refine ⟨h1, ?_, ?_⟩
    · rw [h3, bookkeep_syncCmds]
    · rw [h2]
      exact (spendAmmo_fields (bindEnts a p q)).2.2.2

/-- Resolving the 3 point attack with one round left in the sample world brings the counter
from 1 to 0. -/
theorem Maintain_ammo_invariant_witness :
    Maintain alwaysHit heavyAttack 0 (sampleGame none) (some nearRecord)
        = some (MaintenanceStatus.Complete, spendAmmo (bindEnts heavyAttack 0 1), afterHeavy) ∧
      heavyAttack.Current_ammo = 1 ∧
      (spendAmmo (bindEnts heavyAttack 0 1)).Current_ammo = 0 :=
  ⟨rfl, rfl,
    ((Maintain_ammo_invariant alwaysHit heavyAttack 0 (sampleGame none) (some nearRecord)
      MaintenanceStatus.Complete (spendAmmo (bindEnts heavyAttack 0 1)) afterHeavy rfl).2.1
      (by decide) (by decide)).2⟩

/-- C12: a fresh instance reads definition ammunition 0 as unlimited.  The maker sets
`Current_ammo` to the `Ammo` of the definition when that is above 0 and to -1 otherwise, so a
new instance never has `Current_ammo = 0`, and for an actor with stats `Preppable` on a new
instance depends on the action points and the targets only. -/
theorem makeBasicAttack_ammo (cname : String) (d : BasicAttackDef) :
    (makeBasicAttack cname d).Current_ammo = (if d.Ammo > 0 then d.Ammo else -1) ∧
    (d.Ammo = 0 → (makeBasicAttack cname d).Current_ammo = -1) ∧
    (makeBasicAttack cname d).Current_ammo ≠ 0 ∧
    (makeBasicAttack cname d).Def = d ∧ (makeBasicAttack cname d).Defname = cname ∧
    (makeBasicAttack cname d).temp = ⟨none, [], none⟩ ∧
    (∀ ent g st, (g.mem ent).Stats = some st →
      Preppable (makeBasicAttack cname d) ent g
        = some (decide (st.ApCur ≥ d.Ap ∧ findTargets (makeBasicAttack cname d) ent g ≠ []))) := by
  have hammo : (makeBasicAttack cname d).Current_ammo = (if d.Ammo > 0 then d.Ammo else -1) := by
    unfold makeBasicAttack
    simp only []
    split_ifs <;> rfl
  have hdef : (makeBasicAttack cname d).Def = d := by
    unfold makeBasicAttack
    simp only []
    split_ifs <;> rfl
  have hne : (makeBasicAttack cname d).Current_ammo ≠ 0 := by
    rw [hammo]
    split_ifs <;> omega
  refine ⟨hammo, ?_, hne, hdef, ?_, ?_, ?_⟩
  · intro h0
    rw [hammo, h0]
    rfl
  · unfold makeBasicAttack
    simp only []
    split_ifs <;> rfl
  · unfold makeBasicAttack
    simp only []
    split_ifs <;> rfl
  · intro ent g st hst
    unfold Preppable
    simp only [ne_eq, hne, not_false_eq_true, if_true, hst, hdef]
    congr 1
    rw [Bool.decide_and]
    congr 1
    simp [List.length_pos]

/-- An instance made from a definition with `Ammo = 0` starts at -1 and can be prepared in the
sample world. -/
theorem makeBasicAttack_ammo_witness :
    (makeBasicAttack "claw" { sampleDef with Ammo := 0 }).Current_ammo = -1 ∧
      Preppable (makeBasicAttack "claw" { sampleDef with Ammo := 0 }) 0 (sampleGame none)
        = some true := by
  refine ⟨(makeBasicAttack_ammo "claw" { sampleDef with Ammo := 0 }).2.1 rfl, ?_⟩
  rw [(makeBasicAttack_ammo "claw" { sampleDef with Ammo := 0 }).2.2.2.2.2.2 0 (sampleGame none)
    ⟨4, 8, []⟩ rfl]
  decide

/-! ## Maintain: hit and miss -/

theorem maintainResolve_hit (doAttack : AttackOracle) (a : BasicAttack) (g : Game)
    (p q : EntPtr) (st tst : Stats)
    (hst : (g.mem p).Stats = some st) (htst : (g.mem q).Stats = some tst)
    (hhit : doAttack (attackWorld a g p q st) p q a.Def.Strength a.Def.Kind = true) :
    ∃ a1 g1, maintainResolve doAttack a g p q = some (MaintenanceStatus.Complete, a1, g1) ∧
      hitOutcome a g p q st tst a1 g1 := by
  have hd : (spendAmmo a).Def = a.Def := (spendAmmo_fields a).1
  unfold attackWorld at hhit
  unfold maintainResolve
  simp only [faceEachOther_Stats, hst, hd, hhit, if_true, setStats_Stats]
  by_cases hqp : q = p
  · subst hqp
    rw [hst] at htst
    cases htst
    simp only [if_true]
    refine ⟨_, _, rfl, (spendAmmo_fields a).2.2.2,
      (applyConditions a.Def.Conditions (st.ApplyDamage (-a.Def.Ap) 0 Unspecified)).ApplyDamage
        0 (-a.Def.Damage) a.Def.Kind,
      (applyConditions a.Def.Conditions (st.ApplyDamage (-a.Def.Ap) 0 Unspecified)).ApplyDamage
        0 (-a.Def.Damage) a.Def.Kind, ?_, ?_, ?_, ?_, ?_, ?_, ?_⟩
    · simp only [commandSync, setStats_Stats, if_true]
    · simp only [Stats.ApCur, Stats.ApplyDamage, (applyConditions_fields _ _).1]
      omega
    · simp only [commandSync, setStats_Stats, if_true]
    · simp only [Stats.HpCur, Stats.ApplyDamage, (applyConditions_fields _ _).2.1]
      omega
    · simp only [Stats.ApplyDamage, (applyConditions_fields _ _).2.2]
    · intro r h1 _
      simp only [commandSync, setStats_Stats, faceEachOther_Stats, h1, if_false]
    · simp only [commandSync, setStats_syncCmds, faceEachOther_syncCmds]
      split_ifs <;> rfl
  · have hpq : p ≠ q := fun h => hqp h.symm
    simp only [hqp, if_false, htst]
    refine ⟨_, _, rfl, (spendAmmo_fields a).2.2.2,
      st.ApplyDamage (-a.Def.Ap) 0 Unspecified,
      (applyConditions a.Def.Conditions tst).ApplyDamage 0 (-a.Def.Damage) a.Def.Kind,
      ?_, ?_, ?_, ?_, ?_, ?_, ?_⟩
    · simp only [commandSync, setStats_Stats, hpq, if_true, if_false]
    · simp only [Stats.ApCur, Stats.ApplyDamage]
      omega
    · simp only [commandSync, setStats_Stats, if_true]
    · simp only [Stats.HpCur, Stats.ApplyDamage, (applyConditions_fields _ _).2.1]
      omega
    · simp only [Stats.ApplyDamage, (applyConditions_fields _ _).2.2]
    · intro r h1 h2
      simp only [commandSync, setStats_Stats, faceEachOther_Stats, h1, h2, if_false]
    · simp only [commandSync, setStats_syncCmds, faceEachOther_syncCmds]
      split_ifs <;> rfl

theorem maintainResolve_miss (doAttack : AttackOracle) (a : BasicAttack) (g : Game)
    (p q : EntPtr) (st tst : Stats)
    (hst : (g.mem p).Stats = some st) (htst : (g.mem q).Stats = some tst)
    (hmiss : doAttack (attackWorld a g p q st) p q a.Def.Strength a.Def.Kind = false) :
    ∃ a1 g1, maintainResolve doAttack a g p q = some (MaintenanceStatus.Complete, a1, g1) ∧
      missOutcome a g p q st tst a1 g1 := by
  have hd : (spendAmmo a).Def = a.Def := (spendAmmo_fields a).1
  unfold attackWorld at hmiss
  unfold maintainResolve
  simp only [faceEachOther_Stats, hst, hd, hmiss, Bool.false_eq_true, if_false]
  by_cases hqp : q = p
  · subst hqp
    rw [hst] at htst
    cases htst
    refine ⟨_, _, rfl, (spendAmmo_fields a).2.2.2, st.ApplyDamage (-a.Def.Ap) 0 Unspecified,
      st.ApplyDamage (-a.Def.Ap) 0 Unspecified, ?_, ?_, ?_, ?_, ?_, ?_, ?_⟩
    · simp only [commandSync, setStats_Stats, if_true]
    · simp only [Stats.ApCur, Stats.ApplyDamage]
      omega
    · simp only [commandSync, setStats_Stats, if_true]
    · simp only [Stats.HpCur, Stats.ApplyDamage]
      omega
    · simp only [Stats.ApplyDamage]
    · intro r h1
      simp only [commandSync, setStats_Stats, faceEachOther_Stats, h1, if_false]
    · simp only [commandSync, setStats_syncCmds, faceEachOther_syncCmds]
  · refine ⟨_, _, rfl, (spendAmmo_fields a).2.2.2, st.ApplyDamage (-a.Def.Ap) 0 Unspecified,
      tst, ?_, ?_, ?_, rfl, rfl, ?_, ?_⟩
    · simp only [commandSync, setStats_Stats, if_true]
    · simp only [Stats.ApCur, Stats.ApplyDamage]
      omega
    · simp only [commandSync, setStats_Stats, hqp, if_false, faceEachOther_Stats, htst]
    · intro r h1
      simp only [commandSync, setStats_Stats, faceEachOther_Stats, h1, if_false]
    · simp only [commandSync, setStats_syncCmds, faceEachOther_syncCmds]

theorem Maintain_nil_ready (doAttack : AttackOracle) (a : BasicAttack) (dt : Int) (g : Game)
    (p q : EntPtr) (hent : a.temp.ent = some p) (htgt : a.temp.target = some q)
    (hrp : (g.mem p).spriteState = "ready") (hrq : (g.mem q).spriteState = "ready") :
    Maintain doAttack a dt g none = maintainResolve doAttack a g p q := by
  unfold Maintain maintainGate
  simp only [hent, htgt, hrp, hrq, if_true]

theorem hitOutcome_of_bookkeep (a : BasicAttack) (g : Game) (p q : EntPtr) (st tst : Stats)
    (a1 : BasicAttack) (g1 : Game)
    (h : hitOutcome (bindEnts a p q) (bookkeep g p q) p q st tst a1 g1) :
    hitOutcome a g p q st tst a1 g1 := by
  obtain ⟨h0, st1, tst1, h1, h2, h3, h4, h5, h6, h7⟩ := h
  refine ⟨h0, st1, tst1, h1, h2, h3, h4, h5, ?_, h7⟩
  intro r hr1 hr2
  rw [h6 r hr1 hr2, bookkeep_Stats]

theorem missOutcome_of_bookkeep (a : BasicAttack) (g : Game) (p q : EntPtr) (st tst : Stats)
    (a1 : BasicAttack) (g1 : Game)
    (h : missOutcome (bindEnts a p q) (bookkeep g p q) p q st tst a1 g1) :
    missOutcome a g p q st tst a1 g1 := by
  obtain ⟨h0, st1, tst1, h1, h2, h3, h4, h5, h6, h7⟩ := h
  refine ⟨h0, st1, tst1, h1, h2, h3, h4, h5, ?_, h7⟩
  intro r hr1
  rw [h6 r hr1, bookkeep_Stats]

/-- C13: when a `Maintain` call resolves the attack and the hit determination is a hit, the
action points of the actor go down by exactly the cost, every configured condition is applied
to the target, the health of the target goes down by the damage of the action, and the
defender is commanded `defend`, `killed` when its resulting health is 0 or less and `defend`,
`damaged` otherwise (finite ammunition goes down by 1).  This holds for the call that hands in
a valid record while both sprites are ready, and for a later call without record on the bound
actor and target once both sprites are ready. -/
theorem Maintain_hit (doAttack : AttackOracle) (a : BasicAttack) (dt : Int) (g : Game)
    (p q : EntPtr) (st tst : Stats)
    (hst : (g.mem p).Stats = some st) (htst : (g.mem q).Stats = some tst)
    (hrp : (g.mem p).spriteState = "ready") (hrq : (g.mem q).spriteState = "ready") :
    (∀ exec, g.EntityById exec.EntityId = some p → g.EntityById exec.Target = some q →
      st.ApCur ≥ a.Def.Ap → 0 < tst.HpCur →
      distBetweenEnts (g.mem p) (g.mem q) ≤ a.Def.Range →
      doAttack (attackWorld a (bookkeep g p q) p q st) p q a.Def.Strength a.Def.Kind = true →
      ∃ a1 g1, Maintain doAttack a dt g (some exec)
          = some (MaintenanceStatus.Complete, a1, g1) ∧
        hitOutcome a g p q st tst a1 g1) ∧
    (a.temp.ent = some p → a.temp.target = some q →
      doAttack (attackWorld a g p q st) p q a.Def.Strength a.Def.Kind = true →
      ∃ a1 g1, Maintain doAttack a dt g none = some (MaintenanceStatus.Complete, a1, g1) ∧
        hitOutcome a g p q st tst a1 g1) := by
  refine ⟨?_, ?_⟩
  · intro exec hp hq hap hhp hrange hhit
    have hok : ¬ (a.Def.Ap > st.ApCur ∨ tst.HpCur ≤ 0 ∨
        distBetweenEnts (g.mem p) (g.mem q) > a.Def.Range) := by
      rintro (h | h | h) <;> omega
    have hst0 : ((bookkeep g p q).mem p).Stats = some st := by rw [bookkeep_Stats, hst]
    have htst0 : ((bookkeep g p q).mem q).Stats = some tst := by rw [bookkeep_Stats, htst]
    obtain ⟨a1, g1, hr, hout⟩ :=
      maintainResolve_hit doAttack (bindEnts a p q) (bookkeep g p q) p q st tst hst0 htst0 hhit
    refine ⟨a1, g1, ?_, hitOutcome_of_bookkeep a g p q st tst a1 g1 hout⟩
    rw [Maintain_ready doAttack a dt g exec p q st tst hp hq hst htst hok hrp hrq]
    exact hr
  · intro hent htgt hhit
    obtain ⟨a1, g1, hr, hout⟩ := maintainResolve_hit doAttack a g p q st tst hst htst hhit
    refine ⟨a1, g1, ?_, hout⟩
    rw [Maintain_nil_ready doAttack a dt g p q hent htgt hrp hrq]
    exact hr

/-- The two scenarios of the specification: action points 4, cost 2, one round, target health
10, damage 4 gives action points 2, ammunition 0, health 6 and the cue `damaged`; with target
health 3 the health ends at -1 and the cue is `killed`. -/
theorem Maintain_hit_witness :
    (∃ a1 g1, Maintain alwaysHit (sampleAttack none 1) 0 (sampleGame none) (some nearRecord)
        = some (MaintenanceStatus.Complete, a1, g1) ∧
      hitOutcome (sampleAttack none 1) (sampleGame none) 0 1 ⟨4, 8, []⟩ ⟨3, 10, []⟩ a1 g1) ∧
    (Maintain alwaysHit (sampleAttack none 1) 0 (sampleGame none) (some nearRecord)).map
        (fun r => (r.1, r.2.1.Current_ammo, (r.2.2.mem 0).Stats, (r.2.2.mem 1).Stats,
          r.2.2.syncCmds))
      = some (MaintenanceStatus.Complete, 0, some ⟨2, 8, []⟩, some ⟨3, 6, ["bleeding"]⟩,
          [⟨[0, 1], [["melee"], ["defend", "damaged"]], "hit"⟩]) ∧
    (∃ a1 g1, Maintain alwaysHit (sampleAttack none 1) 0 weakGame (some nearRecord)
        = some (MaintenanceStatus.Complete, a1, g1) ∧
      hitOutcome (sampleAttack none 1) weakGame 0 1 ⟨4, 8, []⟩ ⟨3, 3, []⟩ a1 g1) ∧
    (Maintain alwaysHit (sampleAttack none 1) 0 weakGame (some nearRecord)).map
        (fun r => (r.1, r.2.1.Current_ammo, (r.2.2.mem 0).Stats, (r.2.2.mem 1).Stats,
          r.2.2.syncCmds))
      = some (MaintenanceStatus.Complete, 0, some ⟨2, 8, []⟩, some ⟨3, -1, ["bleeding"]⟩,
          [⟨[0, 1], [["melee"], ["defend", "killed"]], "hit"⟩]) :=
  ⟨(Maintain_hit alwaysHit (sampleAttack none 1) 0 (sampleGame none) 0 1 ⟨4, 8, []⟩
      ⟨3, 10, []⟩ rfl rfl rfl rfl).1 nearRecord (by decide) (by decide) (by decide)
      (by decide) (by decide) rfl,
    by decide,
    (Maintain_hit alwaysHit (sampleAttack none 1) 0 weakGame 0 1 ⟨4, 8, []⟩
      ⟨3, 3, []⟩ rfl rfl rfl rfl).1 nearRecord (by decide) (by decide) (by decide)
      (by decide) (by decide) rfl,
    by decide⟩

/-- C14: when a `Maintain` call resolves the attack and the hit determination is a miss, the
health and the conditions of the target are as before, the defender is commanded `defend`,
`undamaged`, and still the action points of the actor go down by exactly the cost and finite
ammunition goes down by 1.  This holds for the call that hands in a valid record while both
sprites are ready, and for a later call without record on the bound actor and target once
both sprites are ready. -/
theorem Maintain_miss (doAttack : AttackOracle) (a : BasicAttack) (dt : Int) (g : Game)
    (p q : EntPtr) (st tst : Stats)
    (hst : (g.mem p).Stats = some st) (htst : (g.mem q).Stats = some tst)
    (hrp : (g.mem p).spriteState = "ready") (hrq : (g.mem q).spriteState = "ready") :
    (∀ exec, g.EntityById exec.EntityId = some p → g.EntityById exec.Target = some q →
      st.ApCur ≥ a.Def.Ap → 0 < tst.HpCur →
      distBetweenEnts (g.mem p) (g.mem q) ≤ a.Def.Range →
      doAttack (attackWorld a (bookkeep g p q) p q st) p q a.Def.Strength a.Def.Kind = false →
      ∃ a1 g1, Maintain doAttack a dt g (some exec)
          = some (MaintenanceStatus.Complete, a1, g1) ∧
        missOutcome a g p q st tst a1 g1) ∧
    (a.temp.ent = some p → a.temp.target = some q →
      doAttack (attackWorld a g p q st) p q a.Def.Strength a.Def.Kind = false →
      ∃ a1 g1, Maintain doAttack a dt g none = some (MaintenanceStatus.Complete, a1, g1) ∧
        missOutcome a g p q st tst a1 g1) := by
  refine ⟨?_, ?_⟩
  · intro exec hp hq hap hhp hrange hmiss
    have hok : ¬ (a.Def.Ap > st.ApCur ∨ tst.HpCur ≤ 0 ∨
        distBetweenEnts (g.mem p) (g.mem q) > a.Def.Range) := by
      rintro (h | h | h) <;> omega
    have hst0 : ((bookkeep g p q).mem p).Stats = some st := by rw [bookkeep_Stats, hst]
    have htst0 : ((bookkeep g p q).mem q).Stats = some tst := by rw [bookkeep_Stats, htst]
    obtain ⟨a1, g1, hr, hout⟩ :=
      maintainResolve_miss doAttack (bindEnts a p q) (bookkeep g p q) p q st tst hst0 htst0
        hmiss
    refine ⟨a1, g1, ?_, missOutcome_of_bookkeep a g p q st tst a1 g1 hout⟩
    rw [Maintain_ready doAttack a dt g exec p q st tst hp hq hst htst hok hrp hrq]
    exact hr
  · intro hent htgt hmiss
    obtain ⟨a1, g1, hr, hout⟩ := maintainResolve_miss doAttack a g p q st tst hst htst hmiss
    refine ⟨a1, g1, ?_, hout⟩
    rw [Maintain_nil_ready doAttack a dt g p q hent htgt hrp hrq]
    exact hr

/-- A miss in the sample world: the enemy keeps its 10 health and plays `undamaged`, the actor
still pays 2 action points and the last round is spent. -/
theorem Maintain_miss_witness :
    (∃ a1 g1, Maintain alwaysMiss (sampleAttack none 1) 0 (sampleGame none) (some nearRecord)
        = some (MaintenanceStatus.Complete, a1, g1) ∧
      missOutcome (sampleAttack none 1) (sampleGame none) 0 1 ⟨4, 8, []⟩ ⟨3, 10, []⟩ a1 g1) ∧
    (Maintain alwaysMiss (sampleAttack none 1) 0 (sampleGame none) (some nearRecord)).map
        (fun r => (r.1, r.2.1.Current_ammo, (r.2.2.mem 0).Stats, (r.2.2.mem 1).Stats,
          r.2.2.syncCmds))
      = some (MaintenanceStatus.Complete, 0, some ⟨2, 8, []⟩, some ⟨3, 10, []⟩,
          [⟨[0, 1], [["melee"], ["defend", "undamaged"]], "hit"⟩]) :=
  ⟨(Maintain_miss alwaysMiss (sampleAttack none 1) 0 (sampleGame none) 0 1 ⟨4, 8, []⟩
      ⟨3, 10, []⟩ rfl rfl rfl rfl).1 nearRecord (by decide) (by decide) (by decide)
      (by decide) (by decide) rfl,
    by decide⟩

/-! ## Prep and Cancel -/

theorem Preppable_true_targets (a : BasicAttack) (ent : EntPtr) (g : Game)
    (h : Preppable a ent g = some true) : findTargets a ent g ≠ [] := by
  unfold Preppable at h
  split_ifs at h with h0
  · cases hst : (g.mem ent).Stats with
    | none => simp [hst] at h
    | some st =>
      simp only [hst, Option.some.injEq, Bool.and_eq_true, decide_eq_true_eq] at h
      exact List.length_pos.mp h.2
  · simp at h

/-- C15: `Prep` returns exactly what `Preppable` returns for the same actor and world (and
faults exactly when `Preppable` does); when that is false, instance and world are unchanged;
when it is true, the bound actor of the instance is the given actor, the cached target list
is `findTargets` of actor and world and hence non-empty, and the selected target, the
ammunition, the definition and every entity (so the action points of the actor) are
unchanged, the only write to the world being the registration of the sounds of the action. -/
theorem Prep_spec (a : BasicAttack) (ent : EntPtr) (g : Game) :
    (Prep a ent g).map (fun r => r.1) = Preppable a ent g ∧
    (Preppable a ent g = some false → Prep a ent g = some (false, a, g)) ∧
    (Preppable a ent g = some true →
      ∃ a1 g1, Prep a ent g = some (true, a1, g1) ∧
        a1.temp.ent = some ent ∧ a1.temp.targets = findTargets a ent g ∧
        a1.temp.targets ≠ [] ∧ a1.temp.target = a.temp.target ∧
        a1.Current_ammo = a.Current_ammo ∧ a1.Def = a.Def ∧ a1.Defname = a.Defname ∧
        g1.mem = g.mem ∧ g1.Ents = g.Ents ∧ g1.hovered = g.hovered ∧
        g1.syncCmds = g.syncCmds ∧
        g1.soundMaps = (match a.Def.Sounds with
          | none => g.soundMaps
          | some m => g.soundMaps ++ [m])) := by
  refine ⟨?_, ?_, ?_⟩
  · unfold Prep
    cases hp : Preppable a ent g with
    | none => rfl
    | some b => cases b <;> rfl
  · intro hp
    unfold Prep
    rw [hp]
  · intro hp
    have hne := Preppable_true_targets a ent g hp
    unfold Prep
    rw [hp]
    refine ⟨_, _, rfl, rfl, rfl, hne, rfl, rfl, rfl, rfl, ?_, ?_, ?_, ?_, ?_⟩ <;>
      cases hs : a.Def.Sounds <;> simp only [hs]

/-- In the sample world `Prep` succeeds, binds the actor and caches the one legal target. -/
theorem Prep_spec_witness :
    Preppable (sampleAttack none 1) 0 (sampleGame none) = some true ∧
      ∃ a1 g1, Prep (sampleAttack none 1) 0 (sampleGame none) = some (true, a1, g1) ∧
        a1.temp.ent = some 0 ∧ a1.temp.targets = [1] ∧ a1.Current_ammo = 1 := by
  refine ⟨by decide, ?_⟩
  obtain ⟨a1, g1, h, h1, h2, -, -, h5, -⟩ :=
    (Prep_spec (sampleAttack none 1) 0 (sampleGame none)).2.2 (by decide)
  refine ⟨a1, g1, h, h1, ?_, h5⟩
  rw [h2]
  decide

/-- C17: `Cancel` resets the transient data of the instance (bound actor, cached targets,
selected target) to empty and leaves the ammunition, the name and the shared definition as
they are; it is given the instance only, so no entity and no action points can change; and
cancelling twice is the same as cancelling once. -/
theorem Cancel_spec (a : BasicAttack) :
    (Cancel a).temp.ent = none ∧ (Cancel a).temp.targets = [] ∧
    (Cancel a).temp.target = none ∧
    (Cancel a).Current_ammo = a.Current_ammo ∧ (Cancel a).Def = a.Def ∧
    (Cancel a).Defname = a.Defname ∧ Cancel (Cancel a) = Cancel a :=
  ⟨rfl, rfl, rfl, rfl, rfl, rfl, rfl⟩

/-! ## Maintain: bookkeeping and absence of faults -/

theorem bookkeep_Info (g : Game) (p q : EntPtr) :
    ((bookkeep g p q).mem p).Info.LastEntThatIAttacked = (g.mem q).Id ∧
      ((bookkeep g p q).mem q).Info.LastEntThatAttackedMe = (g.mem p).Id := by
  unfold bookkeep
  simp only [modify_mem]
  by_cases hpq : p = q
  · subst hpq
    simp
  · have hqp : ¬ q = p := fun h => hpq h.symm
    simp [hpq, hqp]

theorem faceEachOther_Info (g : Game) (p q r : EntPtr) :
    ((faceEachOther g p q).mem r).Info = (g.mem r).Info := by
  obtain ⟨fc, h⟩ := faceEachOther_mem g p q r
  rw [h]

theorem setStats_Info (g : Game) (p : EntPtr) (s : Stats) (r : EntPtr) :
    ((g.setStats p s).mem r).Info = (g.mem r).Info := by
  rw [setStats_mem]
  split_ifs <;> rfl

/-- The resolution steps do not write the bookkeeping fields. -/
theorem maintainResolve_Info (doAttack : AttackOracle) (a : BasicAttack) (g : Game)
    (p q : EntPtr) (s : MaintenanceStatus) (a1 : BasicAttack) (g1 : Game)
    (h : maintainResolve doAttack a g p q = some (s, a1, g1)) :
    ∀ r, (g1.mem r).Info = (g.mem r).Info := by
  unfold maintainResolve at h
  cases hst : ((faceEachOther g p q).mem p).Stats with
  | none => simp [hst] at h
  | some st =>
    simp only [hst] at h
    split_ifs at h with hit
    · cases htst : (((faceEachOther g p q).setStats p
          (st.ApplyDamage (-(spendAmmo a).Def.Ap) 0 Unspecified)).mem q).Stats with
      | none => simp [htst] at h
      | some tst =>
        simp only [htst, Option.some.injEq, Prod.mk.injEq] at h
        obtain ⟨-, -, h3⟩ := h
        subst h3
        intro r
        simp only [commandSync, setStats_Info, faceEachOther_Info]
    · simp only [Option.some.injEq, Prod.mk.injEq] at h
      obtain ⟨-, -, h3⟩ := h
      subst h3
      intro r
      simp only [commandSync, setStats_Info, faceEachOther_Info]

theorem maintainGate_Info (doAttack : AttackOracle) (a : BasicAttack) (g : Game)
    (s : MaintenanceStatus) (a1 : BasicAttack) (g1 : Game)
    (h : maintainGate doAttack a g = some (s, a1, g1)) :
    ∀ r, (g1.mem r).Info = (g.mem r).Info := by
  unfold maintainGate at h
  cases hent : a.temp.ent with
  | none => simp [hent] at h
  | some p =>
    simp only [hent] at h
    split_ifs at h with h1
    · cases htgt : a.temp.target with
      | none => simp [htgt] at h
      | some q =>
        simp only [htgt] at h
        split_ifs at h with h2
        · exact maintainResolve_Info doAttack a g p q s a1 g1 h
        · simp only [Option.some.injEq, Prod.mk.injEq] at h
          intro r
          rw [← h.2.2]
    · simp only [Option.some.injEq, Prod.mk.injEq] at h
      intro r
      rw [← h.2.2]

/-- A result of a `Maintain` call that is handed a record resolving to `p` and `q`: either
the validation forced `Complete` right after the bookkeeping, or the result is the one of the
ready gate on the bound instance and the world after the bookkeeping. -/
theorem Maintain_record_inv (doAttack : AttackOracle) (a : BasicAttack) (dt : Int) (g : Game)
    (exec : basicAttackExec) (p q : EntPtr) (s : MaintenanceStatus) (a1 : BasicAttack)
    (g1 : Game)
    (hp : g.EntityById exec.EntityId = some p) (hq : g.EntityById exec.Target = some q)
    (h : Maintain doAttack a dt g (some exec) = some (s, a1, g1)) :
    (s = MaintenanceStatus.Complete ∧ a1 = bindEnts a p q ∧ g1 = bookkeep g p q) ∨
      maintainGate doAttack (bindEnts a p q) (bookkeep g p q) = some (s, a1, g1) := by
  unfold Maintain maintainBind at h
  simp only [hp, hq] at h
  cases hst : ((bookkeep g p q).mem p).Stats with
  | none => simp [hst] at h
  | some st =>
    cases htst : ((bookkeep g p q).mem q).Stats with
    | none =>
      simp only [hst, htst] at h
      split_ifs at h
      simp only [Option.some.injEq, Prod.mk.injEq] at h
      exact Or.inl ⟨h.1.symm, h.2.1.symm, h.2.2.symm⟩
    | some tst =>
      simp only [hst, htst] at h
      split_ifs at h
      · simp only [Option.some.injEq, Prod.mk.injEq] at h
        exact Or.inl ⟨h.1.symm, h.2.1.symm, h.2.2.symm⟩
      · simp only [Option.some.injEq, Prod.mk.injEq] at h
        exact Or.inl ⟨h.1.symm, h.2.1.symm, h.2.2.symm⟩
      · simp only [Option.some.injEq, Prod.mk.injEq] at h
        exact Or.inl ⟨h.1.symm, h.2.1.symm, h.2.2.symm⟩
      · exact Or.inr h

/-- C16, the claim as stated fails: in the sample world a record aimed at the dead enemy is
forced to `Complete` by the validation and a valid record waits as `InProgress` while the
sprite of the enemy is busy, and in both calls the two bookkeeping fields, 0 before, are
written. -/
theorem Maintain_bookkeeping_before_validation :
    ((sampleGame none).mem 0).Info.LastEntThatIAttacked = 0 ∧
    ((sampleGame none).mem 2).Info.LastEntThatAttackedMe = 0 ∧
    (Maintain alwaysHit (sampleAttack none 1) 0 (sampleGame none) (some deadRecord)).map
        (fun r => (r.1, (r.2.2.mem 0).Info.LastEntThatIAttacked,
          (r.2.2.mem 2).Info.LastEntThatAttackedMe, r.2.2.syncCmds.length))
      = some (MaintenanceStatus.Complete, 12, 10, 0) ∧
    (Maintain alwaysHit (sampleAttack none 1) 0 ((sampleGame none).withSprite 1 "hurt")
          (some nearRecord)).map
        (fun r => (r.1, (r.2.2.mem 0).Info.LastEntThatIAttacked,
          (r.2.2.mem 1).Info.LastEntThatAttackedMe, r.2.2.syncCmds.length))
      = some (MaintenanceStatus.InProgress, 11, 10, 0) := by
  refine ⟨rfl, rfl, by decide, by decide⟩

/-- C16, amended: the attacker/defender bookkeeping is performed when a record is bound, at
the start of every `Maintain` call that is handed a record and before the validation and the
ready gate: whatever such a call returns (`InProgress`, `Complete` forced by a validation
failure, or `Complete` after resolving), afterwards the actor has the id of the target as
`LastEntThatIAttacked` and the target has the id of the actor as `LastEntThatAttackedMe`.
The resolution steps themselves do not write these fields: a call without a record leaves the
bookkeeping of every entity as it was. -/
theorem Maintain_bookkeeping (doAttack : AttackOracle) (a : BasicAttack) (dt : Int)
    (g : Game) :
    (∀ exec p q s a1 g1, g.EntityById exec.EntityId = some p →
      g.EntityById exec.Target = some q →
      Maintain doAttack a dt g (some exec) = some (s, a1, g1) →
      (g1.mem p).Info.LastEntThatIAttacked = (g.mem q).Id ∧
        (g1.mem q).Info.LastEntThatAttackedMe = (g.mem p).Id) ∧
    (∀ s a1 g1, Maintain doAttack a dt g none = some (s, a1, g1) →
      ∀ r, (g1.mem r).Info = (g.mem r).Info) := by
  refine ⟨?_, ?_⟩
  · intro exec p q s a1 g1 hp hq h
    obtain ⟨hi1, hi2⟩ := bookkeep_Info g p q
    rcases Maintain_record_inv doAttack a dt g exec p q s a1 g1 hp hq h with ⟨-, -, hg⟩ | hgate
    · rw [hg]
      exact ⟨hi1, hi2⟩
    · have hinfo := maintainGate_Info doAttack _ _ s a1 g1 hgate
      rw [hinfo p, hinfo q]
      exact ⟨hi1, hi2⟩
  · intro s a1 g1 h
    exact maintainGate_Info doAttack a g s a1 g1 h

/-- A valid record in the sample world with ready sprites is resolved, and afterwards the
actor remembers the enemy (id 11) and the enemy remembers the actor (id 10). -/
theorem Maintain_bookkeeping_witness :
    (sampleGame none).EntityById nearRecord.EntityId = some 0 ∧
    (sampleGame none).EntityById nearRecord.Target = some 1 ∧
    Maintain alwaysHit heavyAttack 0 (sampleGame none) (some nearRecord)
      = some (MaintenanceStatus.Complete, spendAmmo (bindEnts heavyAttack 0 1), afterHeavy) ∧
    (afterHeavy.mem 0).Info.LastEntThatIAttacked = 11 ∧
    (afterHeavy.mem 1).Info.LastEntThatAttackedMe = 10 :=
  ⟨by decide, by decide, rfl,
    (Maintain_bookkeeping alwaysHit heavyAttack 0 (sampleGame none)).1 nearRecord 0 1
      MaintenanceStatus.Complete (spendAmmo (bindEnts heavyAttack 0 1)) afterHeavy
      (by decide) (by decide) rfl⟩

/-- C18: `Maintain` does not fault on a record whose acting-entity id and target id both
resolve to entities with combat stats: whatever the action points, the health, the distance,
the ammunition, the sprite states and the hit determination are, it returns `InProgress` or
`Complete` together with an instance and a world. -/
theorem Maintain_no_fault (doAttack : AttackOracle) (a : BasicAttack) (dt : Int) (g : Game)
    (exec : basicAttackExec) (p q : EntPtr) (st tst : Stats)
    (hp : g.EntityById exec.EntityId = some p) (hq : g.EntityById exec.Target = some q)
    (hst : (g.mem p).Stats = some st) (htst : (g.mem q).Stats = some tst) :
    ∃ s a1 g1, Maintain doAttack a dt g (some exec) = some (s, a1, g1) ∧
      (s = MaintenanceStatus.InProgress ∨ s = MaintenanceStatus.Complete) := by
  by_cases hbad : a.Def.Ap > st.ApCur ∨ tst.HpCur ≤ 0 ∨
      distBetweenEnts (g.mem p) (g.mem q) > a.Def.Range
  · exact ⟨_, _, _, Maintain_invalid doAttack a dt g exec p q st tst hp hq hst htst hbad,
      Or.inr rfl⟩
  · by_cases hbusy : (g.mem p).spriteState ≠ "ready" ∨ (g.mem q).spriteState ≠ "ready"
    · exact ⟨_, _, _,
        Maintain_waiting doAttack a dt g exec p q st tst hp hq hst htst hbad hbusy,
        Or.inl rfl⟩
    · rw [not_or, not_not, not_not] at hbusy
      have hst0 : ((bookkeep g p q).mem p).Stats = some st := by rw [bookkeep_Stats, hst]
      have htst0 : ((bookkeep g p q).mem q).Stats = some tst := by rw [bookkeep_Stats, htst]
      obtain ⟨a1, g1, hr, -⟩ :=
        maintainResolve_spec doAttack (bindEnts a p q) (bookkeep g p q) p q st tst hst0 htst0
      refine ⟨_, a1, g1, ?_, Or.inr rfl⟩
      rw [Maintain_ready doAttack a dt g exec p q st tst hp hq hst htst hbad hbusy.1 hbusy.2]
      exact hr

/-- In the sample world the record aimed at the living enemy is resolved without a fault. -/
theorem Maintain_no_fault_witness :
    ∃ s a1 g1, Maintain alwaysHit (sampleAttack none 1) 0 (sampleGame none) (some nearRecord)
        = some (s, a1, g1) ∧
      (s = MaintenanceStatus.InProgress ∨ s = MaintenanceStatus.Complete) :=
  Maintain_no_fault alwaysHit (sampleAttack none 1) 0 (sampleGame none) nearRecord 0 1
    ⟨4, 8, []⟩ ⟨3, 10, []⟩ (by decide) (by decide) rfl rfl

/-! ## Records against the validation of Maintain -/

/-- C19, the code at the failing inputs.  The record that `HandleInput` returns for a press on
the enemy five cells away (range 1) takes the out-of-range branch of `Maintain`, and the
record that `AiAttackTarget` returns for the dead enemy takes the dead-target branch: in both
cases the first block of `Maintain` reports a validation failure and the call completes
without resolving anything. -/
theorem producer_records_fail_validation :
    HandleInput (sampleAttack (some 0) 1) pressGroup (sampleGame (some 3))
        = some (true, some farRecord) ∧
      (maintainBind (sampleAttack (some 0) 1) (sampleGame (some 3)) farRecord).map
          (fun r => r.1) = some true ∧
      distBetweenEnts ((sampleGame (some 3)).mem 0) ((sampleGame (some 3)).mem 3) = 5 ∧
      (sampleAttack (some 0) 1).Def.Range = 1 ∧
      observe 0 3 (Maintain alwaysHit (sampleAttack (some 0) 1) 0 (sampleGame (some 3))
          (some farRecord))
        = some (MaintenanceStatus.Complete, 1, some ⟨4, 8, []⟩, some ⟨3, 7, []⟩, 0) ∧
      AiAttackTarget (sampleAttack none 1) 0 2 (sampleGame none) = some (some deadRecord) ∧
      (maintainBind (sampleAttack none 1) (sampleGame none) deadRecord).map
          (fun r => r.1) = some true ∧
      ((sampleGame none).mem 2).Stats = some ⟨3, 0, []⟩ ∧
      observe 0 2 (Maintain alwaysHit (sampleAttack none 1) 0 (sampleGame none)
          (some deadRecord))
        = some (MaintenanceStatus.Complete, 1, some ⟨4, 8, []⟩, some ⟨3, 0, []⟩, 0) := by
  refine ⟨by decide, by decide, by decide, rfl, by decide, by decide, by decide, rfl,
    by decide⟩

/-! ## Key bindings -/

theorem splitPlus_ne_nil (s : GoString) : splitPlus s ≠ [] := by
  induction s with
  | nil => simp [splitPlus]
  | cons c cs ih =>
    unfold splitPlus
    split_ifs
    · simp
    · cases h : splitPlus cs with
      | nil => exact absurd h ih
      | cons part parts => simp

/-- No part contains the separator, and joining the parts with the separator gives the
string back: `splitPlus` is the split of the Go library. -/
theorem splitPlus_join (s : GoString) :
    (∀ part ∈ splitPlus s, plusByte ∉ part) ∧
      List.intercalate [plusByte] (splitPlus s) = s := by
  induction s with
  | nil => simp [splitPlus, List.intercalate]
  | cons c cs ih =>
    obtain ⟨ih1, ih2⟩ := ih
    unfold splitPlus
    split_ifs with hc
    · refine ⟨?_, ?_⟩
      · intro part hpart
        rcases List.mem_cons.mp hpart with h | h
        · subst h
          simp
        · exact ih1 part h
      · cases h : splitPlus cs with
        | nil => exact absurd h (splitPlus_ne_nil cs)
        | cons part parts =>
          rw [h] at ih2
          rw [← ih2, hc]
          simp [List.intercalate, List.intersperse]
    · cases h : splitPlus cs with
      | nil => exact absurd h (splitPlus_ne_nil cs)
      | cons part parts =>
        rw [h] at ih1 ih2
        refine ⟨?_, ?_⟩
        · intro x hx
          rcases List.mem_cons.mp hx with hx | hx
          · subst hx
            intro hmem
            rcases List.mem_cons.mp hmem with h1 | h1
            · exact hc h1.symm
            · exact ih1 part (List.mem_cons_self _ _) h1
          · exact ih1 x (List.mem_cons_of_mem _ hx)
        · rw [← ih2]
          cases parts with
          | nil => simp [List.intercalate, List.intersperse]
          | cons p2 ps => simp [List.intercalate, List.intersperse]

theorem foldl_append_kid (f : GoString → KeyId) (l : List GoString) :
    ∀ acc : List KeyId, l.foldl (fun kids part => kids ++ [f part]) acc = acc ++ l.map f := by
  induction l with
  | nil => intro acc; simp
  | cons x xs ih =>
    intro acc
    rw [List.foldl_cons, ih]
    simp

theorem getKeysFromString_eq_map (k : ModifierIds) (str : GoString) :
    getKeysFromString k str = (splitPlus str).map (kidOfPart k) := by
  unfold getKeysFromString
  rw [foldl_append_kid]
  simp

theorem foldl_down (l : List KeyId) :
    ∀ acc : List Bool, l.foldl (fun (down : List Bool) _ => down ++ [true]) acc
      = acc ++ List.replicate l.length true := by
  induction l with
  | nil => intro acc; simp
  | cons x xs ih =>
    intro acc
    rw [List.foldl_cons, ih]
    simp [List.replicate_succ]

/-- The value of `makeKey` in terms of the parts of the binding string. -/
theorem makeKey_eq (k : ModifierIds) (key val : GoString) :
    (∀ part, splitPlus val = [part] → makeKey k key val = some (Key.natural (kidOfPart k part))) ∧
    (2 ≤ (splitPlus val).length →
      ∃ mainPart, (splitPlus val).getLast? = some mainPart ∧
        makeKey k key val = some (Key.derived key (kidOfPart k mainPart)
          ((splitPlus val).dropLast.map (kidOfPart k))
          (List.replicate ((splitPlus val).length - 1) true))) := by
  refine ⟨?_, ?_⟩
  · intro part hpart
    unfold makeKey
    simp only [getKeysFromString_eq_map, hpart, List.map_cons, List.map_nil,
      List.length_singleton, if_true]
  · intro hlen
    have hne : splitPlus val ≠ [] := splitPlus_ne_nil val
    refine ⟨(splitPlus val).getLast hne, List.getLast?_eq_getLast _ hne, ?_⟩
    unfold makeKey
    have h1 : ¬ ((splitPlus val).map (kidOfPart k)).length = 1 := by
      rw [List.length_map]
      omega
    have h3 : ¬ (splitPlus val).length = 1 := by omega
    simp only [getKeysFromString_eq_map, List.length_map, h3, if_false, List.getLast?_map,
      List.getLast?_eq_getLast _ hne, Option.map_some', foldl_down, List.nil_append,
      List.length_take, List.map_take]
    rw [List.dropLast_eq_take]
    have h2 : min ((splitPlus val).length - 1) (splitPlus val).length
        = (splitPlus val).length - 1 := by omega
    simp only [h2, List.map_take]

theorem makeKey_total (k : ModifierIds) (key val : GoString) :
    ∃ x, makeKey k key val = some x := by
  cases h : splitPlus val with
  | nil => exact absurd h (splitPlus_ne_nil val)
  | cons part parts =>
    cases parts with
    | nil => exact ⟨_, (makeKey_eq k key val).1 part h⟩
    | cons p2 ps =>
      have hlen : 2 ≤ (splitPlus val).length := by
        rw [h]
        simp
      obtain ⟨mainPart, -, hm⟩ := (makeKey_eq k key val).2 hlen
      exact ⟨_, hm⟩

theorem MakeKeyMap_total (k : ModifierIds) (kb : List (GoString × GoString)) :
    ∃ m, MakeKeyMap k kb = some m ∧
      List.Forall₂ (fun e r => r.1 = e.1 ∧ makeKey k e.1 e.2 = some r.2) kb m := by
  induction kb with
  | nil => exact ⟨[], rfl, List.Forall₂.nil⟩
  | cons e rest ih =>
    obtain ⟨key, val⟩ := e
    obtain ⟨m, hm, hall⟩ := ih
    obtain ⟨x, hx⟩ := makeKey_total k key val
    refine ⟨(key, x) :: m, ?_, List.Forall₂.cons ⟨rfl, hx⟩ hall⟩
    unfold MakeKeyMap
    rw [hx, hm]

/-- C20: `getKeysFromString` returns exactly one key id per part of the binding string
between the separators `+`, in order, so its result is never empty; a part of one byte gives
the key id with the value of that byte, and the parts `ctrl`, `shift`, `alt`, `gui` give the
either-control, either-shift, either-alt and either-gui ids.  Hence in `MakeKeyMap` a binding
with n >= 2 parts becomes a derived key whose main key is the id of the last part and whose
modifiers are the ids of the first n-1 parts in order, each required to be down; and
`MakeKeyMap` produces an entry for every binding. -/
theorem getKeysFromString_spec (k : ModifierIds) (str : GoString) :
    ((∀ part ∈ splitPlus str, plusByte ∉ part) ∧
      List.intercalate [plusByte] (splitPlus str) = str) ∧
    getKeysFromString k str = (splitPlus str).map (kidOfPart k) ∧
    (getKeysFromString k str).length = (splitPlus str).length ∧
    getKeysFromString k str ≠ [] ∧
    (∀ b : Nat, kidOfPart k [b] = b) ∧
    kidOfPart k strCtrl = k.EitherControl ∧ kidOfPart k strShift = k.EitherShift ∧
    kidOfPart k strAlt = k.EitherAlt ∧ kidOfPart k strGui = k.EitherGui ∧
    (∀ key, 2 ≤ (splitPlus str).length →
      ∃ mainPart, (splitPlus str).getLast? = some mainPart ∧
        makeKey k key str = some (Key.derived key (kidOfPart k mainPart)
          ((splitPlus str).dropLast.map (kidOfPart k))
          (List.replicate ((splitPlus str).length - 1) true))) ∧
    (∀ kb : List (GoString × GoString), ∃ m, MakeKeyMap k kb = some m ∧
      List.Forall₂ (fun e r => r.1 = e.1 ∧ makeKey k e.1 e.2 = some r.2) kb m) := by
  have hmap := getKeysFromString_eq_map k str
  refine ⟨splitPlus_join str, hmap, ?_, ?_, ?_, rfl, rfl, rfl, rfl, ?_, ?_⟩
  · rw [hmap, List.length_map]
  · rw [hmap]
    intro h
    exact splitPlus_ne_nil str (List.map_eq_nil_iff.mp h)
  · intro b
    rfl
  · intro key hlen
    exact (makeKey_eq k key str).2 hlen
  · intro kb
    exact MakeKeyMap_total k kb

/-- The binding `ctrl+shift+a` under the name `fire`: three key ids, the main key is `a` (97)
and the modifiers are either-control and either-shift, both required to be down. -/
theorem getKeysFromString_spec_witness :
    splitPlus strCtrlShiftA = [strCtrl, strShift, [97]] ∧
    getKeysFromString sampleIds strCtrlShiftA = [1000, 1001, 97] ∧
    (∃ mainPart, (splitPlus strCtrlShiftA).getLast? = some mainPart ∧
      makeKey sampleIds strFire strCtrlShiftA
        = some (Key.derived strFire (kidOfPart sampleIds mainPart)
          ((splitPlus strCtrlShiftA).dropLast.map (kidOfPart sampleIds))
          (List.replicate ((splitPlus strCtrlShiftA).length - 1) true))) ∧
    makeKey sampleIds strFire strCtrlShiftA
      = some (Key.derived strFire 97 [1000, 1001] [true, true]) ∧
    MakeKeyMap sampleIds [(strFire, strCtrlShiftA), (strAlt, [97])]
      = some [(strFire, Key.derived strFire 97 [1000, 1001] [true, true]),
          (strAlt, Key.natural 97)] :=
  ⟨by decide, by decide,
    (getKeysFromString_spec sampleIds strCtrlShiftA).2.2.2.2.2.2.2.2.2.1 strFire (by decide),
    by decide, by decide⟩

end Haunts
